import Mathlib

/-!
Verification of the MCP-server-generator intelligence subsystem:
the OpenAPI minifier pipeline, the semantic / memory caches, the
documentation orchestrator and the intelligence service, shallowly
embedded from the TypeScript sources.
-/

namespace MCPG

/-! JSON values, mirroring the JavaScript object trees that
`JSON.stringify` serializes in the source. Arrays and objects are
mutual inductives so that structural recursion and induction work
smoothly. Object field order models JS insertion order. -/

mutual

inductive Json where
  | null : Json
  | bool (b : Bool) : Json
  | num (n : Nat) : Json
  | str (s : String) : Json
  | arr (xs : JsonArr) : Json
  | obj (fs : JsonObj) : Json
deriving DecidableEq

inductive JsonArr where
  | nil : JsonArr
  | cons (j : Json) (rest : JsonArr) : JsonArr
deriving DecidableEq

inductive JsonObj where
  | nil : JsonObj
  | cons (k : String) (v : Json) (rest : JsonObj) : JsonObj
deriving DecidableEq

end

/-- Hex digit used by `JSON.stringify` for control-character escapes. -/
def hexDigit (n : Nat) : String :=
  if n = 0 then "0" else if n = 1 then "1" else if n = 2 then "2"
  else if n = 3 then "3" else if n = 4 then "4" else if n = 5 then "5"
  else if n = 6 then "6" else if n = 7 then "7" else if n = 8 then "8"
  else if n = 9 then "9" else if n = 10 then "a" else if n = 11 then "b"
  else if n = 12 then "c" else if n = 13 then "d" else if n = 14 then "e"
  else "f"

/-- Escape of a single character inside a JSON string literal,
as performed by `JSON.stringify`. -/
def escChar (c : Char) : String :=
  if c = '"' then "\\\""
  else if c = '\\' then "\\\\"
  else if c = '\n' then "\\n"
  else if c = '\r' then "\\r"
  else if c = '\t' then "\\t"
  else if c = '\x08' then "\\b"
  else if c = '\x0c' then "\\f"
  else if c.toNat < 32 then "\\u00" ++ hexDigit (c.toNat / 16) ++ hexDigit (c.toNat % 16)
  else String.singleton c

/-- Body of a JSON string literal: every character escaped. -/
def escapeStr (s : String) : String :=
  s.data.foldr (fun c acc => escChar c ++ acc) ""

/-- A JSON string literal: quotes around the escaped body. -/
def jstr (s : String) : String := "\"" ++ escapeStr s ++ "\""

mutual

/-- `JSON.stringify` on a JSON tree. -/
def Json.ser : Json → String
  | .null => "null"
  | .bool true => "true"
  | .bool false => "false"
  | .num n => toString n
  | .str s => jstr s
  | .arr xs => "[" ++ serArrAll xs ++ "]"
  | .obj fs => "\x7b" ++ serObjAll fs ++ "\x7d"

/-- Array elements after the first, each preceded by a comma. -/
def serArrRest : JsonArr → String
  | .nil => ""
  | .cons j rest => "," ++ Json.ser j ++ serArrRest rest

/-- Comma-separated serialization of all array elements. -/
def serArrAll : JsonArr → String
  | .nil => ""
  | .cons j rest => Json.ser j ++ serArrRest rest

/-- Object fields after the first, each preceded by a comma. -/
def serObjRest : JsonObj → String
  | .nil => ""
  | .cons k v rest => "," ++ jstr k ++ ":" ++ Json.ser v ++ serObjRest rest

/-- Comma-separated serialization of all object fields. -/
def serObjAll : JsonObj → String
  | .nil => ""
  | .cons k v rest => jstr k ++ ":" ++ Json.ser v ++ serObjRest rest

end

/-- Serialized length of a JSON value. -/
def slen (j : Json) : Nat := (Json.ser j).length

/-- Escaped length of a string body. -/
def eslen (s : String) : Nat := (escapeStr s).length

/-- Length contributed by one object field (without its comma). -/
def fieldLen (k : String) (v : Json) : Nat := 2 + eslen k + 1 + slen v

/-- Token estimate used throughout the pipeline:
`Math.ceil(content.length / 4)`. -/
def estimateTokens (content : String) : Nat := (content.length + 3) / 4

/-! The minified specification data model (`types/index.ts`).
Records are association lists in JS insertion order; the schema type is
recursive, so its property map is a mutual inductive. -/

structure MinifiedInfo where
  title : String
  version : String
  description : Option String

mutual

inductive MinifiedSchema where
  | mk (type : String) (ref : Option String) (properties : Option SchemaProps)
       (items : Option MinifiedSchema) (required : Option (List String))
       (enumv : Option JsonArr) (format : Option String) : MinifiedSchema

inductive SchemaProps where
  | nil : SchemaProps
  | cons (k : String) (v : MinifiedSchema) (rest : SchemaProps) : SchemaProps

end

structure MinifiedParameter where
  name : String
  inLoc : String
  required : Option Bool
  type : String
  description : Option String

structure MinifiedRequestBody where
  required : Option Bool
  schema : MinifiedSchema

structure MinifiedResponse where
  description : Option String
  schema : Option MinifiedSchema

structure MinifiedOperation where
  method : String
  operationId : Option String
  summary : Option String
  parameters : Option (List MinifiedParameter)
  requestBody : Option MinifiedRequestBody
  responses : List (String × MinifiedResponse)

structure MinifiedPath where
  path : String
  operations : List MinifiedOperation

structure MinifiedSpec where
  info : MinifiedInfo
  paths : List MinifiedPath
  schemas : List (String × MinifiedSchema)
  tokenCount : Nat

/-! Conversion of the minified structures to JSON trees, following the
field insertion order of the object literals in `minifier.ts`.
`undefined` (`Option.none`) members are omitted, as `JSON.stringify`
does. -/

/-- A JSON array built from a list of values. -/
def jsonArrOfList (l : List Json) : JsonArr :=
  l.foldr JsonArr.cons .nil

/-- A JSON object built from key/value pairs in order. -/
def jsonObjOfList (l : List (String × Json)) : JsonObj :=
  l.foldr (fun kv acc => JsonObj.cons kv.1 kv.2 acc) .nil

/-- JSON array of strings (`required` field of a schema). -/
def strListToJson (l : List String) : Json :=
  .arr (jsonArrOfList (l.map Json.str))

/-- Optional object field: present iff the value is `some`. -/
def optF (k : String) (v : Option Json) (rest : JsonObj) : JsonObj :=
  match v with
  | some j => .cons k j rest
  | none => rest

mutual

def MinifiedSchema.toJson : MinifiedSchema → Json
  | .mk t ref props items req en fmt =>
    .obj (.cons "type" (.str t)
      (optF "ref" (ref.map Json.str)
        (optF "properties" (propsToJson props)
          (optF "items" (itemsToJson items)
            (optF "required" (req.map strListToJson)
              (optF "enum" (en.map Json.arr)
                (optF "format" (fmt.map Json.str) .nil)))))))

def propsToJson : Option SchemaProps → Option Json
  | none => none
  | some ps => some (.obj (propsObj ps))

def propsObj : SchemaProps → JsonObj
  | .nil => .nil
  | .cons k v rest => .cons k v.toJson (propsObj rest)

def itemsToJson : Option MinifiedSchema → Option Json
  | none => none
  | some s => some s.toJson

end

def MinifiedInfo.toJson (i : MinifiedInfo) : Json :=
  .obj (.cons "title" (.str i.title)
    (.cons "version" (.str i.version)
      (optF "description" (i.description.map Json.str) .nil)))

def MinifiedParameter.toJson (p : MinifiedParameter) : Json :=
  .obj (.cons "name" (.str p.name)
    (.cons "in" (.str p.inLoc)
      (optF "required" (p.required.map Json.bool)
        (.cons "type" (.str p.type)
          (optF "description" (p.description.map Json.str) .nil)))))

def MinifiedRequestBody.toJson (b : MinifiedRequestBody) : Json :=
  .obj (optF "required" (b.required.map Json.bool)
    (.cons "schema" b.schema.toJson .nil))

def MinifiedResponse.toJson (r : MinifiedResponse) : Json :=
  .obj (optF "description" (r.description.map Json.str)
    (optF "schema" (r.schema.map MinifiedSchema.toJson) .nil))

/-- Record of responses keyed by status code. -/
def responsesObj (rs : List (String × MinifiedResponse)) : JsonObj :=
  jsonObjOfList (rs.map fun kv => (kv.1, kv.2.toJson))

/-- JSON array of parameters. -/
def paramsToJson (ps : List MinifiedParameter) : Json :=
  .arr (jsonArrOfList (ps.map MinifiedParameter.toJson))

def MinifiedOperation.toJson (o : MinifiedOperation) : Json :=
  .obj (.cons "method" (.str o.method)
    (optF "operationId" (o.operationId.map Json.str)
      (optF "summary" (o.summary.map Json.str)
        (optF "parameters" (o.parameters.map paramsToJson)
          (optF "requestBody" (o.requestBody.map MinifiedRequestBody.toJson)
            (.cons "responses" (.obj (responsesObj o.responses)) .nil))))))

def MinifiedPath.toJson (p : MinifiedPath) : Json :=
  .obj (.cons "path" (.str p.path)
    (.cons "operations"
      (.arr (jsonArrOfList (p.operations.map MinifiedOperation.toJson))) .nil))

/-- JSON array of path entries. -/
def pathsArr (ps : List MinifiedPath) : JsonArr :=
  jsonArrOfList (ps.map MinifiedPath.toJson)

/-- Record of schemas keyed by name. -/
def schemasObj (ss : List (String × MinifiedSchema)) : JsonObj :=
  jsonObjOfList (ss.map fun kv => (kv.1, kv.2.toJson))

/-- `JSON.stringify` view of a whole minified specification. -/
def specJson (m : MinifiedSpec) : Json :=
  .obj (.cons "info" m.info.toJson
    (.cons "paths" (.arr (pathsArr m.paths))
      (.cons "schemas" (.obj (schemasObj m.schemas))
        (.cons "tokenCount" (.num m.tokenCount) .nil))))

/-- Serialized length of a minified specification. -/
def specLen (m : MinifiedSpec) : Nat := slen (specJson m)

/-- Token estimate of a minified specification, as recomputed by the
pipeline: `estimateTokens(JSON.stringify(spec))`. -/
def specEstimate (m : MinifiedSpec) : Nat := estimateTokens (Json.ser (specJson m))

/-! The OpenAPI source document, restricted to the members the minifier
reads (`openapi-types` values are plain JS objects; unread members
cannot influence the output). `$ref` nodes are explicit constructors. -/

/-- JS `toLowerCase` (the sources only rely on ASCII case folding). -/
def jsToLower (s : String) : String := String.mk (s.data.map Char.toLower)

/-- JS `toUpperCase` (ASCII). -/
def jsToUpper (s : String) : String := String.mk (s.data.map Char.toUpper)

/-- JS `substring(0, n)`. -/
def jsTake (n : Nat) (s : String) : String := String.mk (s.data.take n)

/-- JS truthiness for an optional string: `undefined` and `""` are falsy. -/
def strTruthy : Option String → Bool
  | some s => !s.isEmpty
  | none => false

/-- JS `a || b` on an optional string with a default. -/
def strOrElse (o : Option String) (dflt : String) : String :=
  match o with
  | some s => if s.isEmpty then dflt else s
  | none => dflt

structure ApiInfo where
  title : String
  version : String
  description : Option String

mutual

inductive ApiSchema where
  | ref (r : String) : ApiSchema
  | mk (type : Option String) (properties : Option ApiProps)
       (items : Option ApiSchema) (required : Option (List String))
       (enumv : Option JsonArr) (format : Option String) : ApiSchema

inductive ApiProps where
  | nil : ApiProps
  | cons (k : String) (v : ApiSchema) (rest : ApiProps) : ApiProps

end

inductive ApiParameter where
  | ref (r : String) : ApiParameter
  | mk (name : String) (inLoc : String) (required : Option Bool)
       (schema : Option ApiSchema) (description : Option String) : ApiParameter

structure ApiMedia where
  schema : Option ApiSchema

inductive ApiRequestBody where
  | ref (r : String) : ApiRequestBody
  | mk (required : Option Bool) (content : List (String × ApiMedia)) : ApiRequestBody

inductive ApiResponse where
  | ref (r : String) : ApiResponse
  | mk (description : Option String) (content : Option (List (String × ApiMedia))) : ApiResponse

structure ApiOperation where
  operationId : Option String
  summary : Option String
  parameters : Option (List ApiParameter)
  requestBody : Option ApiRequestBody
  responses : List (String × ApiResponse)

/-- A path item: `Object.entries` of the path object. Only entries
whose key is an HTTP method are read by the minifier. -/
structure ApiPathItem where
  entries : List (String × ApiOperation)

structure OpenApiDoc where
  info : ApiInfo
  paths : List (String × ApiPathItem)
  schemas : List (String × ApiSchema)

/-- Lookup in a JS record modelled as an association list. -/
def jsLookup {α : Type} (l : List (String × α)) (k : String) : Option α :=
  match l.find? (fun p => p.1 = k) with
  | some p => some p.2
  | none => none

/-! `OpenAPIMinifier` (`pipeline/minifier.ts`). -/

/-- `truncateDescription`: empty or missing descriptions become
`undefined`; longer ones are cut at `maxLength` and get an ellipsis
appended (yielding `maxLength + 3` characters). -/
def truncateDescription (d : Option String) (maxLength : Nat := 200) : Option String :=
  match d with
  | none => none
  | some s =>
    if s.isEmpty then none
    else if s.length > maxLength then some (jsTake maxLength s ++ "...")
    else some s

/-- `isHttpMethod`. -/
def isHttpMethod (m : String) : Bool :=
  ["get", "post", "put", "patch", "delete", "head", "options"].contains (jsToLower m)

/-- `getParameterType`. -/
def getParameterType : Option ApiSchema → String
  | none => "string"
  | some (.ref _) => "ref"
  | some (.mk t _ _ _ _ _) => strOrElse t "string"

mutual

/-- `minifySchema` on a present schema: keeps only
type/properties/items/required/enum/format, with JS falsiness for the
type and format strings; `$ref` becomes `{type: 'ref', ref}`. -/
def minifySchema : ApiSchema → MinifiedSchema
  | .ref r => .mk "ref" (some r) none none none none none
  | .mk t props items req en fmt =>
    .mk (strOrElse t "object") none
      (match props with
       | none => none
       | some ps => some (minifyPropsList ps))
      (match items with
       | none => none
       | some s => some (minifySchema s))
      req en
      (match fmt with
       | some f => if f.isEmpty then none else some f
       | none => none)

def minifyPropsList : ApiProps → SchemaProps
  | .nil => .nil
  | .cons k v rest => .cons k (minifySchema v) (minifyPropsList rest)

end

/-- `minifySchema` on an optional schema: `undefined` yields `{type: 'any'}`. -/
def minifySchemaOpt : Option ApiSchema → MinifiedSchema
  | none => .mk "any" none none none none none none
  | some s => minifySchema s

/-- `minifyParameters`. -/
def minifyParameters : Option (List ApiParameter) → Option (List MinifiedParameter)
  | none => none
  | some params => some (params.map fun p =>
      match p with
      | .ref _ =>
        { name := "ref_parameter", inLoc := "query", required := none,
          type := "string", description := none }
      | .mk name inLoc req schema desc =>
        { name := name, inLoc := inLoc, required := req,
          type := getParameterType schema,
          description := truncateDescription desc 50 })

/-- `minifyRequestBody`. -/
def minifyRequestBody : Option ApiRequestBody → Option MinifiedRequestBody
  | none => none
  | some (.ref _) => none
  | some (.mk req content) =>
    match jsLookup content "application/json" with
    | some media => some { required := req, schema := minifySchemaOpt media.schema }
    | none => none

/-- `minifyResponses`: `$ref` responses are skipped. -/
def minifyResponses (rs : List (String × ApiResponse)) : List (String × MinifiedResponse) :=
  rs.filterMap fun kv =>
    match kv.2 with
    | .ref _ => none
    | .mk desc content =>
      let schema :=
        match content with
        | some c =>
          match jsLookup c "application/json" with
          | some media => some (minifySchemaOpt media.schema)
          | none => none
        | none => none
      some (kv.1, { description := truncateDescription desc 100, schema := schema })

/-- `minifyPaths`: keeps HTTP-method entries, uppercases the method,
truncates the summary, and drops paths without operations. -/
def minifyPaths (paths : List (String × ApiPathItem)) : List MinifiedPath :=
  paths.filterMap fun kv =>
    let operations := kv.2.entries.filterMap fun mo =>
      if isHttpMethod mo.1 then
        some { method := jsToUpper mo.1,
               operationId := mo.2.operationId,
               summary := truncateDescription mo.2.summary,
               parameters := minifyParameters mo.2.parameters,
               requestBody := minifyRequestBody mo.2.requestBody,
               responses := minifyResponses mo.2.responses : MinifiedOperation }
      else none
    if operations.isEmpty then none
    else some { path := kv.1, operations := operations }

/-- `minifySchemas`. -/
def minifySchemas (ss : List (String × ApiSchema)) : List (String × MinifiedSchema) :=
  ss.map fun kv => (kv.1, minifySchema kv.2)

/-- `OpenAPIMinifier.minify`: builds the minified structure with
`tokenCount: 0`, then overwrites `tokenCount` with the estimate of the
serialization taken while the field still holds `0`. -/
def minify (d : OpenApiDoc) : MinifiedSpec :=
  let m0 : MinifiedSpec :=
    { info := { title := d.info.title, version := d.info.version,
                description := truncateDescription d.info.description },
      paths := minifyPaths d.paths,
      schemas := minifySchemas d.schemas,
      tokenCount := 0 }
  { m0 with tokenCount := specEstimate m0 }

/-- `filterPathsByOperations`: keeps method entries whose (truthy)
operation id is listed, and paths with at least one such entry. -/
def filterPathsByOperations (paths : List (String × ApiPathItem))
    (operationIds : List String) : List (String × ApiPathItem) :=
  paths.filterMap fun kv =>
    let kept := kv.2.entries.filter fun mo =>
      isHttpMethod mo.1 &&
        (match mo.2.operationId with
         | some oid => !oid.isEmpty && operationIds.contains oid
         | none => false)
    if kept.isEmpty then none else some (kv.1, { entries := kept })

/-- `OpenAPIMinifier.minifyForOperation`: restricts the paths, keeps all
schemas, omits the info description, and returns `tokenCount: 0`
without recomputing the estimate. -/
def minifyForOperation (d : OpenApiDoc) (operationIds : List String) : MinifiedSpec :=
  { info := { title := d.info.title, version := d.info.version, description := none },
    paths := minifyPaths (filterPathsByOperations d.paths operationIds),
    schemas := minifySchemas d.schemas,
    tokenCount := 0 }

/-! `removeDescriptions`: `JSON.parse(JSON.stringify(spec))` followed by
a recursive `delete obj.description` on every object. Besides the
description members of info, parameters and responses, this also
deletes any map entry literally keyed `"description"`: a schema named
`"description"`, a schema property named `"description"`, a response
status keyed `"description"`, and `description` keys inside enum
values. -/

mutual

def rdJson : Json → Json
  | .null => .null
  | .bool b => .bool b
  | .num n => .num n
  | .str s => .str s
  | .arr xs => .arr (rdJsonArr xs)
  | .obj fs => .obj (rdJsonObj fs)

def rdJsonArr : JsonArr → JsonArr
  | .nil => .nil
  | .cons j rest => .cons (rdJson j) (rdJsonArr rest)

def rdJsonObj : JsonObj → JsonObj
  | .nil => .nil
  | .cons k v rest =>
    if k = "description" then rdJsonObj rest
    else .cons k (rdJson v) (rdJsonObj rest)

end

mutual

def rdSchema : MinifiedSchema → MinifiedSchema
  | .mk t ref props items req en fmt =>
    .mk t ref
      (match props with
       | none => none
       | some ps => some (rdProps ps))
      (match items with
       | none => none
       | some s => some (rdSchema s))
      req
      (match en with
       | none => none
       | some xs => some (rdJsonArr xs))
      fmt

def rdProps : SchemaProps → SchemaProps
  | .nil => .nil
  | .cons k v rest =>
    if k = "description" then rdProps rest
    else .cons k (rdSchema v) (rdProps rest)

end

def rdParam (p : MinifiedParameter) : MinifiedParameter :=
  { p with description := none }

def rdRequestBody (b : MinifiedRequestBody) : MinifiedRequestBody :=
  { b with schema := rdSchema b.schema }

def rdResponse (r : MinifiedResponse) : MinifiedResponse :=
  { description := none, schema := r.schema.map rdSchema }

/-- Responses record: a status entry literally keyed `"description"` is
deleted; every kept response loses its description member. -/
def rdResponsesList : List (String × MinifiedResponse) → List (String × MinifiedResponse)
  | [] => []
  | kv :: rest =>
    if kv.1 = "description" then rdResponsesList rest
    else (kv.1, rdResponse kv.2) :: rdResponsesList rest

def rdOperation (o : MinifiedOperation) : MinifiedOperation :=
  { o with
    parameters := o.parameters.map (List.map rdParam),
    requestBody := o.requestBody.map rdRequestBody,
    responses := rdResponsesList o.responses }

def rdPath (p : MinifiedPath) : MinifiedPath :=
  { p with operations := p.operations.map rdOperation }

/-- Schema record: a schema literally named `"description"` is deleted;
the rest are cleaned recursively. -/
def rdSchemasList : List (String × MinifiedSchema) → List (String × MinifiedSchema)
  | [] => []
  | kv :: rest =>
    if kv.1 = "description" then rdSchemasList rest
    else (kv.1, rdSchema kv.2) :: rdSchemasList rest

/-- Stage 1 of `optimizeForTokenLimit`. -/
def removeDescriptions (m : MinifiedSpec) : MinifiedSpec :=
  { info := { m.info with description := none },
    paths := m.paths.map rdPath,
    schemas := rdSchemasList m.schemas,
    tokenCount := m.tokenCount }

/-- Number of properties of a schema property map. -/
def propsCount : SchemaProps → Nat
  | .nil => 0
  | .cons _ _ rest => propsCount rest + 1

/-- First `n` entries of a property map (`Object.entries(...).slice(0, n)`). -/
def propsTake : Nat → SchemaProps → SchemaProps
  | 0, _ => .nil
  | _, .nil => .nil
  | n + 1, .cons k v rest => .cons k v (propsTake n rest)

/-- The schema rewrite of `simplifySchemas`: a schema with more than 10
properties is replaced by `{type: 'object', properties: first five
properties}`; anything else is untouched. -/
def simplifyEntry : MinifiedSchema → MinifiedSchema
  | .mk t ref (some ps) items req en fmt =>
    if propsCount ps > 10 then .mk "object" none (some (propsTake 5 ps)) none none none none
    else .mk t ref (some ps) items req en fmt
  | s => s

/-- Stage 2 of `optimizeForTokenLimit` (`simplifySchemas`): the rewrite
applied to every schema of the top-level schema map. -/
def simplifySchemas (m : MinifiedSpec) : MinifiedSpec :=
  { m with schemas := m.schemas.map fun kv => (kv.1, simplifyEntry kv.2) }

/-- Priority score of a path used by `reduceOperations`: +2 per GET
operation, +1 per other operation, +1 per (truthy) operation id. -/
def pathScore (p : MinifiedPath) : Nat :=
  p.operations.foldl
    (fun score op =>
      score + (if op.method = "GET" then 2 else 1) +
        (match op.operationId with
         | some oid => if oid.isEmpty then 0 else 1
         | none => 0)) 0

/-- Serialized length based token estimate of a single path entry. -/
def pathEstimate (p : MinifiedPath) : Nat := estimateTokens (Json.ser p.toJson)

/-- Greedy admission loop of `reduceOperations`: keep paths while the
running token total stays within 90% of the budget (the JS comparison
`currentTokens + pathTokens <= maxTokens * 0.9` is taken at its
rational value), and stop at the first rejection. -/
def admitPaths (maxTokens : Nat) : Nat → List MinifiedPath → List MinifiedPath
  | _, [] => []
  | cur, p :: rest =>
    let pt := pathEstimate p
    if (cur + pt) * 10 ≤ maxTokens * 9 then p :: admitPaths maxTokens (cur + pt) rest
    else []

/-- Token estimate of the retained info and schema sections, the seed of
the greedy loop (`JSON.stringify({info, schemas})`). -/
def baseEstimate (m : MinifiedSpec) : Nat :=
  estimateTokens (Json.ser (.obj (.cons "info" m.info.toJson
    (.cons "schemas" (.obj (schemasObj m.schemas)) .nil))))

/-- Stage 3 of `optimizeForTokenLimit` (`reduceOperations`): sort paths
by descending priority score (stable, as `Array.prototype.sort` in V8),
then greedily re-admit them until the budget is approached. -/
def reduceOperations (m : MinifiedSpec) (maxTokens : Nat) : MinifiedSpec :=
  let sorted := m.paths.mergeSort (fun a b => pathScore b ≤ pathScore a)
  { m with paths := admitPaths maxTokens (baseEstimate m) sorted }

/-- `OpenAPIMinifier.optimizeForTokenLimit`: staged reduction with early
return once under budget; each early return and the final return
overwrite `tokenCount` with the estimate of the serialization taken
while the field still holds the input's value. -/
def optimizeForTokenLimit (m : MinifiedSpec) (maxTokens : Nat) : MinifiedSpec :=
  if m.tokenCount ≤ maxTokens then m
  else if specEstimate (removeDescriptions m) ≤ maxTokens then
    { removeDescriptions m with tokenCount := specEstimate (removeDescriptions m) }
  else if specEstimate (simplifySchemas (removeDescriptions m)) ≤ maxTokens then
    { simplifySchemas (removeDescriptions m) with
      tokenCount := specEstimate (simplifySchemas (removeDescriptions m)) }
  else
    { reduceOperations (simplifySchemas (removeDescriptions m)) maxTokens with
      tokenCount := specEstimate (reduceOperations (simplifySchemas (removeDescriptions m)) maxTokens) }

/-! The response cache (`cache/semantic-cache.ts`). -/

/-- JS whitespace class `\s` (the characters relevant to `trim` and
`replace(/\s+/g, ' ')`). -/
def jsWhitespace (c : Char) : Bool :=
  c = ' ' || c = '\t' || c = '\n' || c = '\r' || c = '\x0b' || c = '\x0c' ||
  c = '\u00a0' || c = '\u1680' ||
  ('\u2000' ≤ c && c ≤ '\u200a') ||
  c = '\u2028' || c = '\u2029' || c = '\u202f' || c = '\u205f' ||
  c = '\u3000' || c = '\ufeff'

/-- One-pass collapse of each maximal whitespace run to a single space
(`replace(/\s+/g, ' ')`): the flag records whether the scan stands
inside a run already replaced. -/
def collapseWsGo : Bool → List Char → List Char
  | _, [] => []
  | inRun, c :: rest =>
    if jsWhitespace c then
      if inRun then collapseWsGo true rest
      else ' ' :: collapseWsGo true rest
    else c :: collapseWsGo false rest

def collapseWs (l : List Char) : List Char := collapseWsGo false l

/-- JS `trim`. -/
def jsTrim (s : String) : String :=
  String.mk ((s.data.dropWhile jsWhitespace).reverse.dropWhile jsWhitespace |>.reverse)

/-- `normalizePrompt`: trim, collapse whitespace runs, lowercase. -/
def normalizePrompt (prompt : String) : String :=
  jsToLower (String.mk (collapseWs (jsTrim prompt).data))

/-- The canonical tuple hashed by `generateKey`
(`{prompt: normalized, model, temperature, ...additionalParams}`). -/
structure KeyData where
  prompt : String
  model : String
  temperature : Option Rat
  additionalParams : List (String × String)
deriving DecidableEq

/-- The composition `sha256 ∘ JSON.stringify` on the canonical tuple is
an external, fixed, deterministic function; models quantify over it (a
real SHA-256 digest has 64 hex characters). -/
def Digest : Type := KeyData → String

/-- `MemoryCache.generateKey`: bare hex digest of the canonical tuple. -/
def memGenerateKey (digest : Digest) (prompt model : String)
    (temperature : Option Rat) (additionalParams : List (String × String)) : String :=
  digest { prompt := normalizePrompt prompt, model := model,
           temperature := temperature, additionalParams := additionalParams }

/-- The fixed namespace of shared-cache keys (`mcpgen:cache:`). -/
def cachePref : String := "mcpgen:cache:"

/-- `SemanticCache.generateKey`: digest with the `mcpgen:cache:` namespace. -/
def semGenerateKey (digest : Digest) (prompt model : String)
    (temperature : Option Rat) (additionalParams : List (String × String)) : String :=
  cachePref ++ memGenerateKey digest prompt model temperature additionalParams

/-- `LLMResponse.usage`. -/
structure LLMUsage where
  promptTokens : Nat
  completionTokens : Nat
  totalTokens : Nat
  cost : Rat
deriving DecidableEq

structure LLMResponse where
  content : String
  usage : LLMUsage
  model : String
deriving DecidableEq

structure EntryMetadata where
  created : Nat
  accessed : Nat
  hits : Nat
  cost : Rat
deriving DecidableEq

structure CacheEntry where
  key : String
  value : LLMResponse
  metadata : EntryMetadata
deriving DecidableEq

structure CacheStats where
  totalRequests : Nat
  hits : Nat
  misses : Nat
  hitRate : Rat
  costSavings : Rat
  storageUsed : Int
deriving DecidableEq

def CacheStats.init : CacheStats :=
  { totalRequests := 0, hits := 0, misses := 0, hitRate := 0,
    costSavings := 0, storageUsed := 0 }

/-- External string-level functions the cache composes with: the key
digest and the serialized entry size (`JSON.stringify(entry).length`,
which renders `Date` values). Both are fixed pure functions; the model
quantifies over them. -/
structure Codec where
  digest : Digest
  entrySize : CacheEntry → Int

/-! JS `Map` semantics over an association list: `set` updates in place
keeping the original position, otherwise appends; `delete` removes the
unique occurrence; iteration follows insertion order. -/

def jsMapGet (l : List (String × CacheEntry)) (k : String) : Option CacheEntry :=
  match l.find? (fun p => p.1 = k) with
  | some p => some p.2
  | none => none

def jsMapSet : List (String × CacheEntry) → String → CacheEntry → List (String × CacheEntry)
  | [], k, v => [(k, v)]
  | (k', v') :: rest, k, v =>
    if k' = k then (k', v) :: rest else (k', v') :: jsMapSet rest k v

def jsMapDelete (l : List (String × CacheEntry)) (k : String) : List (String × CacheEntry) :=
  l.eraseP (fun p => p.1 = k)

/-- `MemoryCache` instance state (`new MemoryCache(maxSize, defaultTTL)`
defaults to 1000 entries and 3600000 ms). -/
structure MemoryCacheState where
  cache : List (String × CacheEntry)
  stats : CacheStats
  maxSize : Nat
  defaultTTL : Nat

def MemoryCacheState.init (maxSize : Nat := 1000) (defaultTTL : Nat := 3600000) :
    MemoryCacheState :=
  { cache := [], stats := CacheStats.init, maxSize := maxSize, defaultTTL := defaultTTL }

/-- `isEntryValid`: the entry age is strictly below the TTL. -/
def isEntryValid (st : MemoryCacheState) (e : CacheEntry) (now : Nat) : Bool :=
  (now : Int) - (e.metadata.created : Int) < (st.defaultTTL : Int)

/-- The scan of `evictLRU`: first entry strictly older than everything
seen so far, seeded with `Date.now()`. -/
def victimGo : List (String × CacheEntry) → Option String → Int → Option String
  | [], best, _ => best
  | (k, e) :: rest, best, bestTime =>
    if (e.metadata.accessed : Int) < bestTime then victimGo rest (some k) e.metadata.accessed
    else victimGo rest best bestTime

/-- Key selected for eviction, if any. -/
def evictVictim (st : MemoryCacheState) (now : Nat) : Option String :=
  victimGo st.cache none now

/-- `MemoryCache.evictLRU`. -/
def evictLRU (cx : Codec) (st : MemoryCacheState) (now : Nat) : MemoryCacheState :=
  match evictVictim st now with
  | none => st
  | some k =>
    let storage :=
      match jsMapGet st.cache k with
      | some e => st.stats.storageUsed - cx.entrySize e
      | none => st.stats.storageUsed
    { st with cache := jsMapDelete st.cache k,
              stats := { st.stats with storageUsed := storage } }

/-- `MemoryCache.get`. -/
def memGet (cx : Codec) (st : MemoryCacheState) (prompt model : String)
    (temperature : Rat := 7/10) (additionalParams : List (String × String) := [])
    (now : Nat := 0) : Option LLMResponse × MemoryCacheState :=
  let st := { st with stats := { st.stats with totalRequests := st.stats.totalRequests + 1 } }
  let key := memGenerateKey cx.digest prompt model (some temperature) additionalParams
  match jsMapGet st.cache key with
  | some entry =>
    if isEntryValid st entry now then
      let entry' := { entry with metadata :=
        { entry.metadata with accessed := now, hits := entry.metadata.hits + 1 } }
      let st := { st with cache := jsMapSet st.cache key entry' }
      let st := { st with stats := { st.stats with
        hits := st.stats.hits + 1,
        costSavings := st.stats.costSavings + entry.value.usage.cost } }
      (some entry.value, st)
    else
      let st := { st with cache := jsMapDelete st.cache key }
      (none, { st with stats := { st.stats with misses := st.stats.misses + 1 } })
  | none =>
    (none, { st with stats := { st.stats with misses := st.stats.misses + 1 } })

/-- `MemoryCache.set`. -/
def memSet (cx : Codec) (st : MemoryCacheState) (prompt model : String)
    (response : LLMResponse) (temperature : Rat := 7/10)
    (additionalParams : List (String × String) := []) (now : Nat := 0) :
    MemoryCacheState :=
  let key := memGenerateKey cx.digest prompt model (some temperature) additionalParams
  let entry : CacheEntry :=
    { key := key, value := response,
      metadata := { created := now, accessed := now, hits := 0,
                    cost := response.usage.cost } }
  let st := if st.cache.length ≥ st.maxSize then evictLRU cx st now else st
  { st with cache := jsMapSet st.cache key entry,
            stats := { st.stats with
              storageUsed := st.stats.storageUsed + cx.entrySize entry } }

/-- `MemoryCache.getStats` (mutates `hitRate`, then returns a copy). -/
def memGetStats (st : MemoryCacheState) : CacheStats × MemoryCacheState :=
  let rate : Rat :=
    if st.stats.totalRequests > 0 then
      (st.stats.hits : Rat) / (st.stats.totalRequests : Rat)
    else 0
  let st := { st with stats := { st.stats with hitRate := rate } }
  (st.stats, st)

/-- `MemoryCache.clear`. -/
def memClear (st : MemoryCacheState) : MemoryCacheState :=
  { st with cache := [], stats := { st.stats with storageUsed := 0 } }

/-- Arguments of one cache call in a workload. -/
structure CallArgs where
  prompt : String
  model : String
  temperature : Rat
  params : List (String × String)
  response : LLMResponse

/-- The cache key a call resolves to. -/
def keyOf (cx : Codec) (a : CallArgs) : String :=
  memGenerateKey cx.digest a.prompt a.model (some a.temperature) a.params

/-- The entry a `set` call at tick `t` stores. -/
def mkEntry (cx : Codec) (a : CallArgs) (t : Nat) : CacheEntry :=
  { key := keyOf cx a, value := a.response,
    metadata := { created := t, accessed := t, hits := 0,
                  cost := a.response.usage.cost } }

/-- A sequence of `set` calls at one tick. -/
def runSets (cx : Codec) (t : Nat) : List CallArgs → MemoryCacheState → MemoryCacheState
  | [], st => st
  | a :: rest, st =>
    runSets cx t rest (memSet cx st a.prompt a.model a.response a.temperature a.params t)

/-- A sequence of `get` calls at one tick. -/
def runGets (cx : Codec) (t : Nat) : List CallArgs → MemoryCacheState → MemoryCacheState
  | [], st => st
  | a :: rest, st =>
    runGets cx t rest (memGet cx st a.prompt a.model a.temperature a.params t).2

/-! `SemanticCache`: the Redis-backed variant. The remote store is
explicit state; the reachability of the store is an environment of
per-primitive success flags (a failing primitive models a rejected
redis call, which JS surfaces as a thrown error at the `await`). -/

/-- Behaviour of the remote store during a call. -/
structure RedisEnv where
  connectOk : Bool
  getOk : Bool
  setOk : Bool
  keysOk : Bool
  delOk : Bool

/-- A stored cache entry with its absolute expiry tick. -/
structure StoredEntry where
  key : String
  entry : CacheEntry
  expireAt : Nat

/-- `SemanticCache` instance state. `entries` are the keys in the
`mcpgen:cache:` namespace holding serialized `CacheEntry` values;
`savedStats` is the value at the `mcpgen:cache:stats` key. -/
structure SemanticCacheState where
  connected : Bool
  entries : List StoredEntry
  savedStats : Option CacheStats
  stats : CacheStats
  defaultTTL : Nat

/-- Lookup of a live (non-expired) entry. -/
def storeGet (entries : List StoredEntry) (k : String) (now : Nat) : Option CacheEntry :=
  match entries.find? (fun se => se.key = k) with
  | some se => if now < se.expireAt then some se.entry else none
  | none => none

/-- `setEx`: store a value with a fresh TTL (replace in place or append). -/
def storeSetEx : List StoredEntry → String → CacheEntry → Nat → List StoredEntry
  | [], k, e, exp => [{ key := k, entry := e, expireAt := exp }]
  | se :: rest, k, e, exp =>
    if se.key = k then { key := k, entry := e, expireAt := exp } :: rest
    else se :: storeSetEx rest k e exp

/-- `SemanticCache.connect`: a no-op when already open; otherwise the
redis connection is attempted (propagating failure) and the persisted
statistics are loaded (internal try/catch: load failures only log). -/
def semConnect (env : RedisEnv) (st : SemanticCacheState) :
    Except Unit SemanticCacheState :=
  if st.connected then .ok st
  else if !env.connectOk then .error ()
  else
    let st := { st with connected := true }
    if env.getOk then
      match st.savedStats with
      | some s => .ok { st with stats := s }
      | none => .ok st
    else .ok st

/-- `SemanticCache.get`: connect (outside any try/catch), count the
request, then look up the exact key; any store failure inside the
try/catch is logged and counted as a miss. A hit re-writes the entry
with a fresh TTL (sliding expiration, internal try/catch) and updates
hit statistics. -/
def semGet (cx : Codec) (env : RedisEnv) (st : SemanticCacheState)
    (prompt model : String) (temperature : Rat := 7/10)
    (additionalParams : List (String × String) := []) (now : Nat := 0) :
    Except Unit (Option LLMResponse × SemanticCacheState) := do
  let st ← semConnect env st
  let st := { st with stats := { st.stats with totalRequests := st.stats.totalRequests + 1 } }
  let key := semGenerateKey cx.digest prompt model (some temperature) additionalParams
  if !env.getOk then
    .ok (none, { st with stats := { st.stats with misses := st.stats.misses + 1 } })
  else
    match storeGet st.entries key now with
    | some entry =>
      let entry' := { entry with metadata :=
        { entry.metadata with accessed := now, hits := entry.metadata.hits + 1 } }
      let st :=
        if env.setOk then
          { st with entries := storeSetEx st.entries key entry' (now + st.defaultTTL) }
        else st
      .ok (some entry.value,
        { st with stats := { st.stats with
            hits := st.stats.hits + 1,
            costSavings := st.stats.costSavings + entry.value.usage.cost } })
    | none =>
      .ok (none, { st with stats := { st.stats with misses := st.stats.misses + 1 } })

/-- `SemanticCache.set`: connect, then store the entry under a fresh
TTL (`ttl || this.defaultTTL`, so an explicit `0` falls back) and grow
`storageUsed`; store failures are logged and swallowed. -/
def semSet (cx : Codec) (env : RedisEnv) (st : SemanticCacheState)
    (prompt model : String) (response : LLMResponse) (temperature : Rat := 7/10)
    (additionalParams : List (String × String) := []) (ttl : Option Nat := none)
    (now : Nat := 0) : Except Unit SemanticCacheState := do
  let st ← semConnect env st
  let key := semGenerateKey cx.digest prompt model (some temperature) additionalParams
  let entry : CacheEntry :=
    { key := key, value := response,
      metadata := { created := now, accessed := now, hits := 0,
                    cost := response.usage.cost } }
  let ttlToUse :=
    match ttl with
    | some t => if t = 0 then st.defaultTTL else t
    | none => st.defaultTTL
  if !env.setOk then .ok st
  else
    .ok { st with
      entries := storeSetEx st.entries key entry (now + ttlToUse),
      stats := { st.stats with
        storageUsed := st.stats.storageUsed + cx.entrySize entry } }

/-- `SemanticCache.clear` with no pattern: connect, delete every key in
the `mcpgen:cache:` namespace (which also covers the persisted stats
key `mcpgen:cache:stats`), and reset `storageUsed`; store failures
inside the try/catch leave the state unchanged. -/
def semClear (env : RedisEnv) (st : SemanticCacheState) :
    Except Unit SemanticCacheState := do
  let st ← semConnect env st
  if !env.keysOk || !env.delOk then .ok st
  else
    .ok { st with
      entries := [],
      savedStats := none,
      stats := { st.stats with storageUsed := 0 } }

/-- `SemanticCache.getStats`. -/
def semGetStats (st : SemanticCacheState) : CacheStats × SemanticCacheState :=
  let rate : Rat :=
    if st.stats.totalRequests > 0 then
      (st.stats.hits : Rat) / (st.stats.totalRequests : Rat)
    else 0
  let st := { st with stats := { st.stats with hitRate := rate } }
  (st.stats, st)

/-! The enhancement orchestrator (`DocumentationGenerator` in
`services/documentation-generator.ts`, re-exported through `index.ts`),
and the `IntelligenceService` (`intelligence-service.ts`). String-level
codecs that the control flow merely composes with (prompt template
rendering, `JSON.parse`/`JSON.stringify` of documents, regex
extraction) are opaque parameters: every theorem below holds for all of
them. -/

structure MCPParameter where
  name : String
  type : String
  required : Bool
  description : Option String

structure MCPTool where
  name : String
  description : Option String
  parameters : List MCPParameter

structure ParameterDoc where
  name : String
  type : String
  required : Bool
  description : String
  exampleVal : Json
  validation : Option String

structure CodeExample where
  title : String
  description : String
  code : String
  language : String
  output : Option String

structure ErrorCase where
  scenario : String
  error : String
  solution : String

structure ToolDocumentation where
  toolName : String
  description : String
  usage : String
  parameters : List ParameterDoc
  examples : List CodeExample
  errorCases : List ErrorCase
  bestPractices : List String

/-- `generateExampleValue`. -/
def generateExampleValue (type : String) : Json :=
  let t := jsToLower type
  if t = "string" then .str "example-value"
  else if t = "number" then .num 42
  else if t = "boolean" then .bool true
  else if t = "array" then .arr (.cons (.str "item1") (.cons (.str "item2") .nil))
  else if t = "object" then .obj (.cons "key" (.str "value") .nil)
  else .str "example"

/-- `convertToolParameters`. -/
def convertToolParameters (tool : MCPTool) : List ParameterDoc :=
  tool.parameters.map fun p =>
    { name := p.name, type := p.type, required := p.required,
      description := strOrElse p.description (p.name ++ " parameter"),
      exampleVal := generateExampleValue p.type,
      validation := none }

/-- `generateFallbackToolDoc`: the deterministic template used when
tool documentation generation fails. (The `replace(/([A-Z])/g, ' $1')`
is applied after `toLowerCase()`, so it never fires.) -/
def generateFallbackToolDoc (tool : MCPTool) : ToolDocumentation :=
  { toolName := tool.name,
    description := strOrElse tool.description ("Tool for " ++ tool.name),
    usage := "Use this tool to " ++ jsTrim (jsToLower tool.name),
    parameters := convertToolParameters tool,
    examples := [],
    errorCases := [],
    bestPractices :=
      ["Validate all required parameters before calling",
       "Handle errors gracefully",
       "Use appropriate timeout values"] }

/-- `generateFallbackReadme`. -/
def generateFallbackReadme (projectName : String) (tools : List MCPTool)
    (spec : MinifiedSpec) : String :=
  "# " ++ projectName ++ "\n\nMCP Server generated from " ++ spec.info.title ++
  " API.\n\n## Installation\n\n```bash\nnpm install\nnpm run build\n```\n\n## Usage\n\nThis server provides " ++
  toString tools.length ++ " tools for interacting with the " ++ spec.info.title ++
  " API.\n\n## Tools\n\n" ++
  String.intercalate "\n"
    (tools.map fun t => "- **" ++ t.name ++ "**: " ++
      strOrElse t.description "No description available") ++
  "\n"

/-- `generateFallbackErrorGuide`. -/
def generateFallbackErrorGuide (projectName : String) : String :=
  "# Error Handling Guide\n\nThis guide covers common errors and their solutions when using the " ++
  projectName ++
  " MCP server.\n\n## Common Error Types\n\n- **Validation Errors**: Check that all required parameters are provided\n- **Network Errors**: Ensure the API endpoint is accessible\n- **Authentication Errors**: Verify API credentials are correct\n- **Rate Limiting**: Implement appropriate retry logic\n\n## Best Practices\n\n- Always validate input parameters\n- Implement proper error handling\n- Use appropriate timeout values\n- Log errors for debugging\n"

/-- `generateFallbackApiReference`. -/
def generateFallbackApiReference (spec : MinifiedSpec) : String :=
  "# API Reference\n\n## " ++ spec.info.title ++ " v" ++ spec.info.version ++ "\n\n" ++
  strOrElse spec.info.description "API documentation for this service." ++
  "\n\n## Endpoints\n\n" ++
  String.intercalate "\n\n"
    (spec.paths.map fun p =>
      "### " ++ p.path ++ "\n\n" ++
      String.intercalate "\n"
        (p.operations.map fun op =>
          "**" ++ op.method ++ "** - " ++
          strOrElse op.summary (strOrElse op.operationId "No description"))) ++
  "\n"

/-- Opaque string-level collaborators of the `DocumentationGenerator`:
the provider call, the prompt templates, and the JSON/regex codecs for
tool documents and code examples. -/
structure DocGenEnv where
  provider : String → Except String LLMResponse
  providerName : String
  renderToolDoc : MCPTool → String
  parseToolDoc : String → MCPTool → ToolDocumentation
  jparseToolDoc : String → ToolDocumentation
  serToolDoc : ToolDocumentation → String
  renderExample : MCPTool → String
  parseExample : String → MCPTool → String → CodeExample
  jparseExample : String → CodeExample
  serExample : CodeExample → String
  renderReadme : MinifiedSpec → Option String → String
  renderErrorGuide : MinifiedSpec → String
  renderApiRef : MinifiedSpec → String

/-- Cache key of a tool documentation task:
`tool-doc-${tool.name}-${tool.description?.substring(0, 50)}` (an
absent description interpolates as the string `undefined`). -/
def toolDocCacheKey (tool : MCPTool) : String :=
  "tool-doc-" ++ tool.name ++ "-" ++
    (match tool.description with
     | some d => jsTake 50 d
     | none => "undefined")

/-- Cache key of a code example task. -/
def exampleCacheKey (tool : MCPTool) (language : String) : String :=
  "example-" ++ tool.name ++ "-" ++ language

/-- `generateToolDocumentation`: one pass per tool; a cache hit pushes
the parsed cached document, a successful provider call pushes the
parsed response and caches it, and a failure pushes the deterministic
fallback document. Returns the documents, the prompts sent to the
provider, and the cache state. -/
def genToolDocs (cx : Codec) (env : DocGenEnv) (now : Nat) :
    List MCPTool → MemoryCacheState →
    List ToolDocumentation × List String × MemoryCacheState
  | [], st => ([], [], st)
  | tool :: rest, st =>
    let cacheKey := toolDocCacheKey tool
    match memGet cx st cacheKey env.providerName (7/10) [] now with
    | (some cached, st1) =>
      let (docs, calls, st') := genToolDocs cx env now rest st1
      (env.jparseToolDoc cached.content :: docs, calls, st')
    | (none, st1) =>
      let prompt := env.renderToolDoc tool
      match env.provider prompt with
      | .ok resp =>
        let doc := env.parseToolDoc resp.content tool
        let st2 := memSet cx st1 cacheKey env.providerName
          { resp with content := env.serToolDoc doc } (7/10) [] now
        let (docs, calls, st') := genToolDocs cx env now rest st2
        (doc :: docs, prompt :: calls, st')
      | .error _ =>
        let (docs, calls, st') := genToolDocs cx env now rest st1
        (generateFallbackToolDoc tool :: docs, prompt :: calls, st')

/-- Loop body of `generateCodeExamples`: identical cache/provider flow,
except that a failing task pushes nothing at all. -/
def genCodeExamplesLoop (cx : Codec) (env : DocGenEnv) (language : String) (now : Nat) :
    List MCPTool → MemoryCacheState →
    List CodeExample × List String × MemoryCacheState
  | [], st => ([], [], st)
  | tool :: rest, st =>
    let cacheKey := exampleCacheKey tool language
    match memGet cx st cacheKey env.providerName (7/10) [] now with
    | (some cached, st1) =>
      let (exs, calls, st') := genCodeExamplesLoop cx env language now rest st1
      (env.jparseExample cached.content :: exs, calls, st')
    | (none, st1) =>
      let prompt := env.renderExample tool
      match env.provider prompt with
      | .ok resp =>
        let ex := env.parseExample resp.content tool language
        let st2 := memSet cx st1 cacheKey env.providerName
          { resp with content := env.serExample ex } (7/10) [] now
        let (exs, calls, st') := genCodeExamplesLoop cx env language now rest st2
        (ex :: exs, prompt :: calls, st')
      | .error _ =>
        let (exs, calls, st') := genCodeExamplesLoop cx env language now rest st1
        (exs, prompt :: calls, st')

/-- `generateCodeExamples`: at most `maxExamples = 5` tools are
processed. -/
def genCodeExamples (cx : Codec) (env : DocGenEnv) (language : String) (now : Nat)
    (tools : List MCPTool) (st : MemoryCacheState) :
    List CodeExample × List String × MemoryCacheState :=
  genCodeExamplesLoop cx env language now (tools.take 5) st

/-- Common cache-first single-document flow shared by `generateReadme`,
`generateErrorGuide` and `generateApiReference`: cached content is
returned as is; otherwise the provider is called, the response cached,
and on failure the deterministic fallback is returned. -/
def genCachedDoc (cx : Codec) (env : DocGenEnv) (cacheKey prompt fallback : String)
    (now : Nat) (st : MemoryCacheState) : String × List String × MemoryCacheState :=
  match memGet cx st cacheKey env.providerName (7/10) [] now with
  | (some cached, st1) => (cached.content, [], st1)
  | (none, st1) =>
    match env.provider prompt with
    | .ok resp =>
      (resp.content, [prompt], memSet cx st1 cacheKey env.providerName resp (7/10) [] now)
    | .error _ => (fallback, [prompt], st1)

/-- `DocumentationGenerator.features` (constructor defaults merged with
the caller's options). -/
structure DocFeatures where
  examples : Bool
  errorCases : Bool
  bestPractices : Bool
  apiReference : Bool

structure EnhancedDocumentation where
  readme : String
  toolDocs : List ToolDocumentation
  examples : List CodeExample
  errorGuide : String
  apiReference : String

/-- `OpenAPIMinifier.minify(context.spec as any)` applied to an already
minified specification, as `generateEnhancedDocs` does when invoked by
the `IntelligenceService`: the info members are read directly, but
`Object.entries` of the paths array yields index keys (never HTTP
methods), so every path is dropped, and the minified structure has no
`components`, so the schema map is empty. -/
def minifyOfMinified (m : MinifiedSpec) : MinifiedSpec :=
  let m0 : MinifiedSpec :=
    { info := { title := m.info.title, version := m.info.version,
                description := truncateDescription m.info.description },
      paths := [], schemas := [], tokenCount := 0 }
  { m0 with tokenCount := specEstimate m0 }

/-- `DocumentationGenerator.generateEnhancedDocs` as invoked with an
already-minified context specification: readme, per-tool documents,
optional code examples, error guide and API reference, threading the
cache and accumulating the provider calls. -/
def generateEnhancedDocs (cx : Codec) (env : DocGenEnv) (features : DocFeatures)
    (projectName : String) (tools : List MCPTool) (contextSpec : MinifiedSpec)
    (language : String) (existingReadme : Option String) (now : Nat)
    (st : MemoryCacheState) :
    EnhancedDocumentation × List String × MemoryCacheState :=
  let minifiedSpec := minifyOfMinified contextSpec
  let (readme, c1, st1) := genCachedDoc cx env
    ("readme-" ++ projectName ++ "-" ++ minifiedSpec.info.version)
    (env.renderReadme minifiedSpec existingReadme)
    (generateFallbackReadme projectName tools minifiedSpec) now st
  let (toolDocs, c2, st2) := genToolDocs cx env now tools st1
  let (examples, c3, st3) :=
    if features.examples then genCodeExamples cx env language now tools st2
    else ([], [], st2)
  let (errorGuide, c4, st4) :=
    if features.errorCases then
      genCachedDoc cx env ("error-guide-" ++ projectName)
        (env.renderErrorGuide minifiedSpec)
        (generateFallbackErrorGuide projectName) now st3
    else ("", [], st3)
  let (apiReference, c5, st5) :=
    if features.apiReference then
      genCachedDoc cx env
        ("api-ref-" ++ minifiedSpec.info.title ++ "-" ++ minifiedSpec.info.version)
        (env.renderApiRef minifiedSpec)
        (generateFallbackApiReference minifiedSpec) now st4
    else ("", [], st4)
  ({ readme := readme, toolDocs := toolDocs, examples := examples,
     errorGuide := errorGuide, apiReference := apiReference },
   c1 ++ c2 ++ c3 ++ c4 ++ c5, st5)

/-! `IntelligenceService` (`intelligence-service.ts`, shipped in the
repository outside `packages/intelligence/src`). -/

structure FeaturesConfig where
  documentation : Bool
  examples : Bool
  implementation : Bool
  validation : Bool

/-- `IntelligenceConfig.costs`: `maxMonthly` is the configured
maximum-cost ceiling (`--max-cost` on the CLI). -/
structure CostsConfig where
  maxMonthly : Rat
  alertThreshold : Rat

structure IntelligenceConfig where
  features : FeaturesConfig
  costs : CostsConfig
  cacheTTL : Nat

structure ValidationIssue where
  type : String
  severity : String
  message : String
  suggestion : Option String

structure ValidationResult where
  isValid : Bool
  confidence : Rat
  issues : List ValidationIssue
  suggestions : List String

structure OptimizationHint where
  category : String
  suggestion : String
  impact : String
  implementation : String
  estimatedGain : String

structure IntelligenceMetrics where
  requestCount : Nat
  successRate : Rat
  averageLatency : Rat
  totalCost : Rat
  cacheHitRate : Rat
  userSatisfaction : Rat
  featureUsage : List (String × Nat)

def IntelligenceMetrics.init : IntelligenceMetrics :=
  { requestCount := 0, successRate := 0, averageLatency := 0, totalCost := 0,
    cacheHitRate := 0, userSatisfaction := 0, featureUsage := [] }

/-- `trackFeatureUsage`: `featureUsage[f] = (featureUsage[f] || 0) + 1`. -/
def trackFeatureUsage : List (String × Nat) → String → List (String × Nat)
  | [], f => [(f, 1)]
  | (k, n) :: rest, f =>
    if k = f then (k, n + 1) :: rest else (k, n) :: trackFeatureUsage rest f

/-- `updateMetrics`: rolling halving averages over latency and success. -/
def updateMetrics (m : IntelligenceMetrics) (latency : Nat) (success : Bool)
    (cost : Rat) : IntelligenceMetrics :=
  { m with
    averageLatency := (m.averageLatency + (latency : Rat)) / 2,
    totalCost := m.totalCost + cost,
    successRate := if success then (m.successRate + 1) / 2 else m.successRate / 2 }

structure GeneratedProject where
  name : String
  tools : List MCPTool

structure EnhancedProject where
  documentation : Option EnhancedDocumentation
  examples : Option (List CodeExample)
  validation : Option ValidationResult
  optimizations : Option (List OptimizationHint)
  intelligenceFeatures : List String
  intelligenceCost : Rat
  intelligenceCacheHits : Nat
  processingTime : Nat

/-- `enhanceProject` per-call options. -/
structure EnhanceOptions where
  enhanceDocumentation : Option Bool := none
  generateExamples : Option Bool := none
  validateImplementation : Option Bool := none
  optimizePerformance : Option Bool := none

/-- Opaque collaborators of the service level: the validation and
optimization prompts and their `JSON.parse` codecs (a parse failure is
`none` and falls into the catch branch). -/
structure ServiceEnv where
  validationPrompt : String
  parseValidation : String → Option ValidationResult
  optimizationPrompt : String
  parseHints : String → Option (List OptimizationHint)

/-- `validateImplementation`: one provider call; any failure (provider
or parse) yields the deterministic default verdict. Returns the result
and the prompts sent. -/
def validateImplementationRun (env : DocGenEnv) (senv : ServiceEnv) :
    ValidationResult × List String :=
  let fallback : ValidationResult :=
    { isValid := true, confidence := 1/2, issues := [],
      suggestions := ["Unable to perform automated validation"] }
  match env.provider senv.validationPrompt with
  | .ok resp =>
    match senv.parseValidation resp.content with
    | some v => (v, [senv.validationPrompt])
    | none => (fallback, [senv.validationPrompt])
  | .error _ => (fallback, [senv.validationPrompt])

/-- `generateOptimizationHints`: one provider call; any failure yields
the empty hint list. -/
def generateOptimizationHintsRun (env : DocGenEnv) (senv : ServiceEnv) :
    List OptimizationHint × List String :=
  match env.provider senv.optimizationPrompt with
  | .ok resp =>
    match senv.parseHints resp.content with
    | some hs => (hs, [senv.optimizationPrompt])
    | none => ([], [senv.optimizationPrompt])
  | .error _ => ([], [senv.optimizationPrompt])

/-- `IntelligenceService.enhanceProject`. The documentation generator
exists iff the documentation feature is on (`initializeServices`), and
its feature flags are `{examples: features.examples, errorCases: true,
bestPractices: true, apiReference: true}`. The example generator is
modelled by its presence flag only (`exampleGen`), which
`initializeServices` makes non-null iff the examples feature is on; the
`enhanceProject` guard checks that flag. No member of `config.costs` is
ever consulted. Returns the enhanced project, the updated metrics, and
every prompt sent to a provider. -/
def enhanceProject (cx : Codec) (env : DocGenEnv) (senv : ServiceEnv)
    (cfg : IntelligenceConfig)
    (exampleGen : Option (MemoryCacheState → List CodeExample × List String × MemoryCacheState))
    (project : GeneratedProject) (spec : OpenApiDoc) (options : EnhanceOptions)
    (startTime endTime : Nat) (metrics0 : IntelligenceMetrics)
    (docCache0 : MemoryCacheState) :
    EnhancedProject × IntelligenceMetrics × List String :=
  let metrics := { metrics0 with requestCount := metrics0.requestCount + 1 }
  let contextSpec := minify spec
  let base : EnhancedProject :=
    { documentation := none, examples := none, validation := none,
      optimizations := none, intelligenceFeatures := [],
      intelligenceCost := 0, intelligenceCacheHits := 0, processingTime := 0 }
  -- enhanced documentation
  let (enhanced, metrics, totalCost, cacheHits, calls1, _docCache) :=
    if cfg.features.documentation && options.enhanceDocumentation ≠ some false then
      let metrics := { metrics with
        featureUsage := trackFeatureUsage metrics.featureUsage "documentation" }
      let docFeatures : DocFeatures :=
        { examples := cfg.features.examples, errorCases := true,
          bestPractices := true, apiReference := true }
      let (docs, calls, st1) := generateEnhancedDocs cx env docFeatures
        project.name project.tools contextSpec "typescript" none startTime docCache0
      let (docStats, st2) := memGetStats st1
      ({ base with
          documentation := some docs,
          intelligenceFeatures := base.intelligenceFeatures ++ ["enhanced-documentation"] },
       metrics, (0 : Rat) + docStats.costSavings, 0 + docStats.hits, calls, st2)
    else (base, metrics, 0, 0, [], docCache0)
  -- code examples
  let (enhanced, metrics, cacheHits, calls2) :=
    if cfg.features.examples && options.generateExamples ≠ some false then
      match exampleGen with
      | some run =>
        let metrics := { metrics with
          featureUsage := trackFeatureUsage metrics.featureUsage "examples" }
        let (exs, calls, _) := run (MemoryCacheState.init)
        ({ enhanced with
            examples := some exs,
            intelligenceFeatures := enhanced.intelligenceFeatures ++ ["code-examples"] },
         metrics, cacheHits, calls)
      | none => (enhanced, metrics, cacheHits, [])
    else (enhanced, metrics, cacheHits, [])
  -- implementation validation
  let (enhanced, metrics, calls3) :=
    if cfg.features.validation && options.validateImplementation ≠ some false then
      let metrics := { metrics with
        featureUsage := trackFeatureUsage metrics.featureUsage "validation" }
      let (v, calls) := validateImplementationRun env senv
      ({ enhanced with
          validation := some v,
          intelligenceFeatures := enhanced.intelligenceFeatures ++ ["implementation-validation"] },
       metrics, calls)
    else (enhanced, metrics, [])
  -- performance optimization hints
  let (enhanced, metrics, calls4) :=
    if cfg.features.implementation && options.optimizePerformance ≠ some false then
      let metrics := { metrics with
        featureUsage := trackFeatureUsage metrics.featureUsage "optimization" }
      let (hs, calls) := generateOptimizationHintsRun env senv
      ({ enhanced with
          optimizations := some hs,
          intelligenceFeatures := enhanced.intelligenceFeatures ++ ["performance-optimization"] },
       metrics, calls)
    else (enhanced, metrics, [])
  let enhanced := { enhanced with
    intelligenceCost := totalCost,
    intelligenceCacheHits := cacheHits,
    processingTime := endTime - startTime }
  let metrics := updateMetrics metrics (endTime - startTime) true totalCost
  (enhanced, metrics, calls1 ++ calls2 ++ calls3 ++ calls4)

structure CostEstimation where
  estimatedTokens : Rat
  estimatedCost : Rat
  features : List String
  cacheHitProbability : Rat

/-- `estimateCacheHitRate`: bounded heuristic capped at 0.8. -/
def estimateCacheHitRate (project : GeneratedProject) (features : List String) : Rat :=
  let baseRate : Rat := 3/10
  let complexityFactor : Rat := min ((project.tools.length : Rat) / 10) (2/5)
  let featureBonus : Rat := (features.length : Rat) * (1/10)
  min (baseRate + complexityFactor + featureBonus) (4/5)

/-- `IntelligenceService.estimateEnhancementCost`: the pre-flight cost
estimate, priced through the primary provider's per-token rates with a
0.7/0.3 input/output split. -/
def estimateEnhancementCost (rateIn rateOut : Rat) (project : GeneratedProject)
    (spec : OpenApiDoc) (features : List String) : CostEstimation :=
  let baseTokens := (minify spec).tokenCount
  let estimatedTokens : Rat :=
    (if features.contains "documentation" then (baseTokens : Rat) * 2 else 0) +
    (if features.contains "examples" then (project.tools.length : Rat) * 500 else 0) +
    (if features.contains "validation" then (baseTokens : Rat) * (1/2) else 0)
  { estimatedTokens := estimatedTokens,
    estimatedCost := estimatedTokens * (7/10) * rateIn + estimatedTokens * (3/10) * rateOut,
    features := features,
    cacheHitProbability := estimateCacheHitRate project features }

/-! Concrete instances evaluated in the final statements. -/

/-- A specification whose stored `tokenCount` (5) understates its real
estimate (20) while still exceeding the budget `0`; its serialization is
80 characters, a multiple of 4. -/
def mEx1 : MinifiedSpec :=
  { info := { title := "ab", version := "1.0.0", description := none },
    paths := [], schemas := [], tokenCount := 5 }

/-- A well-within-budget specification. -/
def mEx2 : MinifiedSpec :=
  { info := { title := "t", version := "1", description := none },
    paths := [], schemas := [], tokenCount := 3 }

/-- A one-operation OpenAPI document. -/
def dEx1 : OpenApiDoc :=
  { info := { title := "t", version := "1", description := none },
    paths := [("/a", { entries := [("get",
      { operationId := some "op1", summary := none, parameters := none,
        requestBody := none, responses := [] })] })],
    schemas := [] }

/-- A document whose single operation has a 201-character summary. -/
def dEx201 : OpenApiDoc :=
  { info := { title := "t", version := "1", description := none },
    paths := [("/a", { entries := [("get",
      { operationId := some "op1",
        summary := some (String.mk (List.replicate 201 'a')),
        parameters := none, requestBody := none, responses := [] })] })],
    schemas := [] }

/-- Pointwise order on optional field values: absence is below
anything; present values compare by serialized length. -/
def OptLe : Option Json → Option Json → Prop
  | none, _ => True
  | some j, some j' => slen j ≤ slen j'
  | some _, none => False

/-- The estimate of the serialization taken with the `tokenCount` field
still holding `0` (the value the serializer sees inside `minify` and
`optimizeForTokenLimit`). -/
def specBodyEstimate (m : MinifiedSpec) : Nat := specEstimate { m with tokenCount := 0 }

/-- The `MemoryCache` key a tool-documentation task resolves to. -/
def docKeyOf (cx : Codec) (env : DocGenEnv) (tool : MCPTool) : String :=
  memGenerateKey cx.digest (toolDocCacheKey tool) env.providerName (some (7/10)) []

/-- The `MemoryCache` key a code-example task resolves to. -/
def exampleKeyOf (cx : Codec) (env : DocGenEnv) (language : String) (tool : MCPTool) : String :=
  memGenerateKey cx.digest (exampleCacheKey tool language) env.providerName (some (7/10)) []

/-! Concrete cache and orchestrator instances. -/

def cxEx : Codec := { digest := fun kd => kd.prompt, entrySize := fun _ => 1 }

def respEx : LLMResponse :=
  { content := "ok",
    usage := { promptTokens := 1, completionTokens := 1, totalTokens := 2, cost := 0 },
    model := "m" }

def toolA : MCPTool := { name := "alpha", description := none, parameters := [] }

def toolB : MCPTool := { name := "beta", description := none, parameters := [] }

def exDoc : ToolDocumentation :=
  { toolName := "", description := "", usage := "", parameters := [],
    examples := [], errorCases := [], bestPractices := [] }

def exExample : CodeExample :=
  { title := "", description := "", code := "", language := "", output := none }

/-- A provider that fails exactly on the code-example prompt of
`toolB`. -/
def envEx : DocGenEnv :=
  { provider := fun p => if p = "exB" then .error "network down" else .ok respEx,
    providerName := "prov",
    renderToolDoc := fun t => "doc-" ++ t.name,
    parseToolDoc := fun _ _ => exDoc,
    jparseToolDoc := fun _ => exDoc,
    serToolDoc := fun _ => "s",
    renderExample := fun t => if t.name = "beta" then "exB" else "exA",
    parseExample := fun _ t lang =>
      { title := t.name, description := "", code := "", language := lang, output := none },
    jparseExample := fun _ => exExample,
    serExample := fun _ => "e",
    renderReadme := fun _ _ => "r",
    renderErrorGuide := fun _ => "g",
    renderApiRef := fun _ => "a" }

/-- A disconnected store state over an unreachable redis. -/
def semStEx : SemanticCacheState :=
  { connected := false, entries := [], savedStats := none,
    stats := CacheStats.init, defaultTTL := 3600 }

def redisDown : RedisEnv :=
  { connectOk := false, getOk := false, setOk := false, keysOk := false, delOk := false }

/-- One workload call. -/
def argsEx : CallArgs :=
  { prompt := "p", model := "m", temperature := 7/10, params := [], response := respEx }

/-- A store state with an open connection. -/
def semStC : SemanticCacheState :=
  { connected := true, entries := [], savedStats := none,
    stats := CacheStats.init, defaultTTL := 3600 }

/-- A fully reachable redis. -/
def redisUp : RedisEnv :=
  { connectOk := true, getOk := true, setOk := true, keysOk := true, delOk := true }

/-- A redis whose reads are rejected after a successful connect. -/
def redisGetDown : RedisEnv :=
  { connectOk := true, getOk := false, setOk := true, keysOk := true, delOk := true }

def senvEx : ServiceEnv :=
  { validationPrompt := "v", parseValidation := fun _ => none,
    optimizationPrompt := "o", parseHints := fun _ => none }

/-- Documentation-only features with a zero cost ceiling. -/
def cfgZero : IntelligenceConfig :=
  { features := { documentation := true, examples := false,
                  implementation := false, validation := false },
    costs := { maxMonthly := 0, alertThreshold := 0 }, cacheTTL := 0 }

def projEx : GeneratedProject := { name := "proj", tools := [toolA] }

/-- The truncated operation `minify` produces from `dEx201`. -/
def opEx201 : MinifiedOperation :=
  { method := "GET", operationId := some "op1",
    summary := some (String.mk (List.replicate 200 'a') ++ "..."),
    parameters := none, requestBody := none, responses := [] }

def pathEx201 : MinifiedPath := { path := "/a", operations := [opEx201] }

/-- A 64-hex-character-wide digest. -/
def digest64 : Digest := fun _ => String.mk (List.replicate 64 'x')

/-- The entry stored for `argsEx` at tick `0` (cache key `"p"`). -/
def entryP : CacheEntry := mkEntry cxEx argsEx 0

/-- A cache at capacity `1` holding `entryP`. -/
def stFull : MemoryCacheState :=
  { cache := [("p", entryP)], stats := CacheStats.init,
    maxSize := 1, defaultTTL := 3600000 }

/-- The body `optimizeForTokenLimit` reduces `mEx1` to. -/
def mEx1red : MinifiedSpec :=
  { info := { title := "ab", version := "1.0.0", description := none },
    paths := [], schemas := [], tokenCount := 5 }

/-! Serialized-length arithmetic. `restLen`/`allLen` measure the
comma-separated payload of an object or array, with and without the
leading comma of the first field. -/

def restLen (fs : JsonObj) : Nat := (serObjRest fs).length

def allLen (fs : JsonObj) : Nat := (serObjAll fs).length

def arrRestLen (xs : JsonArr) : Nat := (serArrRest xs).length

def arrAllLen (xs : JsonArr) : Nat := (serArrAll xs).length

theorem length_jstr (s : String) : (jstr s).length = 2 + eslen s := by
  have h1 : ("\"" : String).length = 1 := rfl
  simp only [jstr, eslen, String.length_append, h1]
  omega

theorem restLen_nil : restLen .nil = 0 := rfl

theorem allLen_nil : allLen .nil = 0 := rfl

theorem restLen_cons (k : String) (v : Json) (rest : JsonObj) :
    restLen (.cons k v rest) = 1 + fieldLen k v + restLen rest := by
  have h1 : ("," : String).length = 1 := rfl
  have h2 : (":" : String).length = 1 := rfl
  simp only [restLen, serObjRest, String.length_append, length_jstr, fieldLen, slen, h1, h2]
  omega

theorem allLen_cons (k : String) (v : Json) (rest : JsonObj) :
    allLen (.cons k v rest) = fieldLen k v + restLen rest := by
  have h2 : (":" : String).length = 1 := rfl
  simp only [allLen, restLen, serObjAll, String.length_append, length_jstr, fieldLen, slen, h2]

theorem arrRestLen_nil : arrRestLen .nil = 0 := rfl

theorem arrAllLen_nil : arrAllLen .nil = 0 := rfl

theorem arrRestLen_cons (j : Json) (rest : JsonArr) :
    arrRestLen (.cons j rest) = 1 + slen j + arrRestLen rest := by
  have h1 : ("," : String).length = 1 := rfl
  simp only [arrRestLen, serArrRest, String.length_append, slen, h1]

theorem arrAllLen_cons (j : Json) (rest : JsonArr) :
    arrAllLen (.cons j rest) = slen j + arrRestLen rest := by
  simp only [arrAllLen, arrRestLen, serArrAll, String.length_append, slen]

theorem slen_obj (fs : JsonObj) : slen (.obj fs) = 2 + allLen fs := by
  have h1 : ("\x7b" : String).length = 1 := rfl
  have h2 : ("\x7d" : String).length = 1 := rfl
  simp only [slen, Json.ser, allLen, String.length_append, h1, h2]
  omega

theorem slen_arr (xs : JsonArr) : slen (.arr xs) = 2 + arrAllLen xs := by
  have h1 : ("[" : String).length = 1 := rfl
  have h2 : ("]" : String).length = 1 := rfl
  simp only [slen, Json.ser, arrAllLen, String.length_append, h1, h2]
  omega

theorem slen_str (s : String) : slen (.str s) = 2 + eslen s := by
  simp only [slen, Json.ser, length_jstr]

/-- The payload with a leading comma versus without: one more on a
non-empty object. -/
theorem restLen_cons_eq (k : String) (v : Json) (rest : JsonObj) :
    restLen (.cons k v rest) = allLen (.cons k v rest) + 1 := by
  simp only [restLen_cons, allLen_cons]
  omega

theorem allLen_le_restLen (fs : JsonObj) : allLen fs ≤ restLen fs := by
  cases fs with
  | nil => simp [restLen_nil, allLen_nil]
  | cons k v rest => simp only [restLen_cons_eq]; omega

theorem restLen_cons_pos (k : String) (v : Json) (rest : JsonObj) :
    1 ≤ restLen (.cons k v rest) := by
  simp only [restLen_cons]
  omega

theorem allLen_le_of_restLen_le {a b : JsonObj} (h : restLen a ≤ restLen b) :
    allLen a ≤ allLen b := by
  cases a with
  | nil => simp [allLen_nil]
  | cons k v r =>
    cases b with
    | nil =>
      have h1 := restLen_cons_pos k v r
      have h2 : restLen JsonObj.nil = 0 := rfl
      omega
    | cons k' v' r' =>
      have ha := restLen_cons_eq k v r
      have hb := restLen_cons_eq k' v' r'
      omega

theorem slen_obj_le_of_restLen_le {a b : JsonObj} (h : restLen a ≤ restLen b) :
    slen (.obj a) ≤ slen (.obj b) := by
  have := allLen_le_of_restLen_le h
  simp only [slen_obj]
  omega

theorem arrRestLen_cons_pos (j : Json) (rest : JsonArr) :
    1 ≤ arrRestLen (.cons j rest) := by
  simp only [arrRestLen_cons]
  omega

theorem arrAllLen_le_arrRestLen (xs : JsonArr) : arrAllLen xs ≤ arrRestLen xs := by
  cases xs with
  | nil => simp [arrAllLen_nil, arrRestLen_nil]
  | cons j rest => simp only [arrAllLen_cons, arrRestLen_cons]; omega

theorem arrAllLen_le_of_arrRestLen_le {a b : JsonArr} (h : arrRestLen a ≤ arrRestLen b) :
    arrAllLen a ≤ arrAllLen b := by
  cases a with
  | nil =>
    have h0 : arrAllLen JsonArr.nil = 0 := rfl
    omega
  | cons j r =>
    cases b with
    | nil =>
      have h1 := arrRestLen_cons_pos j r
      have h2 : arrRestLen JsonArr.nil = 0 := rfl
      omega
    | cons j' r' =>
      have h1 := arrRestLen_cons j r
      have h2 := arrRestLen_cons j' r'
      have h3 := arrAllLen_cons j r
      have h4 := arrAllLen_cons j' r'
      omega

theorem slen_arr_le_of_arrRestLen_le {a b : JsonArr} (h : arrRestLen a ≤ arrRestLen b) :
    slen (.arr a) ≤ slen (.arr b) := by
  have := arrAllLen_le_of_arrRestLen_le h
  simp only [slen_arr]
  omega

/-- Dropping nothing: the optional field with `none` disappears. -/
theorem restLen_optF_none (k : String) (rest : JsonObj) :
    restLen (optF k none rest) = restLen rest := rfl

theorem restLen_optF_some (k : String) (j : Json) (rest : JsonObj) :
    restLen (optF k (some j) rest) = 1 + fieldLen k j + restLen rest := restLen_cons k j rest

theorem restLen_le_cons (k : String) (v : Json) (rest : JsonObj) :
    restLen rest ≤ restLen (.cons k v rest) := by
  simp only [restLen_cons]
  omega

theorem restLen_mono_cons {v v' : Json} {r r' : JsonObj} (k : String)
    (hv : slen v ≤ slen v') (hr : restLen r ≤ restLen r') :
    restLen (.cons k v r) ≤ restLen (.cons k v' r') := by
  simp only [restLen_cons, fieldLen]
  omega

theorem restLen_mono_optF {o o' : Option Json} {r r' : JsonObj} (k : String)
    (ho : OptLe o o') (hr : restLen r ≤ restLen r') :
    restLen (optF k o r) ≤ restLen (optF k o' r') := by
  cases o with
  | none =>
    cases o' with
    | none => simpa [restLen_optF_none] using hr
    | some j' =>
      calc restLen (optF k none r) = restLen r := restLen_optF_none k r
        _ ≤ restLen r' := hr
        _ ≤ restLen (.cons k j' r') := restLen_le_cons k j' r'
  | some j =>
    cases o' with
    | none => exact absurd ho (by simp [OptLe])
    | some j' => exact restLen_mono_cons k ho hr

theorem OptLe.rfl (o : Option Json) : OptLe o o := by
  cases o <;> simp [OptLe]

theorem OptLe.noneLeft (o : Option Json) : OptLe none o := trivial

theorem jsonArrOfList_nil : jsonArrOfList [] = .nil := rfl

theorem jsonArrOfList_cons (j : Json) (l : List Json) :
    jsonArrOfList (j :: l) = .cons j (jsonArrOfList l) := rfl

theorem jsonObjOfList_nil : jsonObjOfList [] = .nil := rfl

theorem jsonObjOfList_cons (kv : String × Json) (l : List (String × Json)) :
    jsonObjOfList (kv :: l) = .cons kv.1 kv.2 (jsonObjOfList l) := rfl

/-- Pointwise bound on mapped arrays. -/
theorem arrRestLen_map_mono {α : Type} (l : List α) (f g : α → Json)
    (h : ∀ x ∈ l, slen (f x) ≤ slen (g x)) :
    arrRestLen (jsonArrOfList (l.map f)) ≤ arrRestLen (jsonArrOfList (l.map g)) := by
  induction l with
  | nil => simp
  | cons x xs ih =>
    have hx := h x (by simp)
    have hxs := ih (fun y hy => h y (by simp [hy]))
    simp only [List.map_cons, jsonArrOfList_cons, arrRestLen_cons]
    omega

theorem slen_arr_map_mono {α : Type} (l : List α) (f g : α → Json)
    (h : ∀ x ∈ l, slen (f x) ≤ slen (g x)) :
    slen (.arr (jsonArrOfList (l.map f))) ≤ slen (.arr (jsonArrOfList (l.map g))) :=
  slen_arr_le_of_arrRestLen_le (arrRestLen_map_mono l f g h)

/-! Monotonicity of `removeDescriptions` at every level of the tree. -/

mutual

theorem rdJson_slen_le : ∀ j : Json, slen (rdJson j) ≤ slen j
  | .null => by simp [rdJson]
  | .bool b => by simp [rdJson]
  | .num n => by simp [rdJson]
  | .str s => by simp [rdJson]
  | .arr xs => by
    have h := rdJsonArr_arrRestLen_le xs
    simpa [rdJson] using slen_arr_le_of_arrRestLen_le h
  | .obj fs => by
    have h := rdJsonObj_restLen_le fs
    simpa [rdJson] using slen_obj_le_of_restLen_le h

theorem rdJsonArr_arrRestLen_le : ∀ xs : JsonArr, arrRestLen (rdJsonArr xs) ≤ arrRestLen xs
  | .nil => by simp [rdJsonArr]
  | .cons j rest => by
    have h1 := rdJson_slen_le j
    have h2 := rdJsonArr_arrRestLen_le rest
    simp only [rdJsonArr, arrRestLen_cons]
    omega

theorem rdJsonObj_restLen_le : ∀ fs : JsonObj, restLen (rdJsonObj fs) ≤ restLen fs
  | .nil => by simp [rdJsonObj]
  | .cons k v rest => by
    by_cases hk : k = "description"
    · have h2 := rdJsonObj_restLen_le rest
      have h3 := restLen_le_cons k v rest
      simp only [rdJsonObj, if_pos hk]
      omega
    · have h1 := rdJson_slen_le v
      have h2 := rdJsonObj_restLen_le rest
      simp only [rdJsonObj, if_neg hk]
      exact restLen_mono_cons k h1 h2

end

mutual

theorem rdSchema_slen_le : ∀ s : MinifiedSchema, slen (rdSchema s).toJson ≤ slen s.toJson
  | .mk t ref props items req en fmt => by
    unfold rdSchema
    simp only [MinifiedSchema.toJson]
    apply slen_obj_le_of_restLen_le
    apply restLen_mono_cons "type" (Nat.le_refl _)
    apply restLen_mono_optF "ref" (OptLe.rfl _)
    apply restLen_mono_optF "properties"
    case ho =>
      cases props with
      | none => exact OptLe.noneLeft _
      | some ps =>
        have h := rdProps_restLen_le ps
        simpa [propsToJson, OptLe] using slen_obj_le_of_restLen_le h
    apply restLen_mono_optF "items"
    case ho =>
      cases items with
      | none => exact OptLe.noneLeft _
      | some s =>
        have h := rdSchema_slen_le s
        simpa [itemsToJson, OptLe] using h
    apply restLen_mono_optF "required" (OptLe.rfl _)
    apply restLen_mono_optF "enum"
    case ho =>
      cases en with
      | none => exact OptLe.noneLeft _
      | some xs =>
        have h := rdJsonArr_arrRestLen_le xs
        simpa [OptLe] using slen_arr_le_of_arrRestLen_le h
    apply restLen_mono_optF "format" (OptLe.rfl _)
    exact Nat.le_refl _

theorem rdProps_restLen_le : ∀ ps : SchemaProps,
    restLen (propsObj (rdProps ps)) ≤ restLen (propsObj ps)
  | .nil => by simp [rdProps, propsObj]
  | .cons k v rest => by
    by_cases hk : k = "description"
    · have h2 := rdProps_restLen_le rest
      have h3 := restLen_le_cons k v.toJson (propsObj rest)
      simp only [rdProps, if_pos hk, propsObj]
      omega
    · have h1 := rdSchema_slen_le v
      have h2 := rdProps_restLen_le rest
      simp only [rdProps, if_neg hk, propsObj]
      exact restLen_mono_cons k h1 h2

end

theorem rdParam_slen_le (p : MinifiedParameter) :
    slen (rdParam p).toJson ≤ slen p.toJson := by
  simp only [rdParam, MinifiedParameter.toJson]
  apply slen_obj_le_of_restLen_le
  apply restLen_mono_cons "name" (Nat.le_refl _)
  apply restLen_mono_cons "in" (Nat.le_refl _)
  apply restLen_mono_optF "required" (OptLe.rfl _)
  apply restLen_mono_cons "type" (Nat.le_refl _)
  apply restLen_mono_optF "description" (by simp [OptLe.noneLeft])
  exact Nat.le_refl _

theorem rdRequestBody_slen_le (b : MinifiedRequestBody) :
    slen (rdRequestBody b).toJson ≤ slen b.toJson := by
  simp only [rdRequestBody, MinifiedRequestBody.toJson]
  apply slen_obj_le_of_restLen_le
  apply restLen_mono_optF "required" (OptLe.rfl _)
  apply restLen_mono_cons "schema" (rdSchema_slen_le b.schema)
  exact Nat.le_refl _

theorem rdResponse_slen_le (r : MinifiedResponse) :
    slen (rdResponse r).toJson ≤ slen r.toJson := by
  simp only [rdResponse, MinifiedResponse.toJson]
  apply slen_obj_le_of_restLen_le
  apply restLen_mono_optF "description" (by simp [OptLe.noneLeft])
  apply restLen_mono_optF "schema"
  case ho =>
    cases hr : r.schema with
    | none => exact OptLe.noneLeft _
    | some s => simpa [OptLe] using rdSchema_slen_le s
  exact Nat.le_refl _

theorem responsesObj_cons (kv : String × MinifiedResponse)
    (rest : List (String × MinifiedResponse)) :
    responsesObj (kv :: rest) = .cons kv.1 kv.2.toJson (responsesObj rest) := rfl

/-- The responses record after key filtering and description removal. -/
theorem rdResponses_restLen_le (rs : List (String × MinifiedResponse)) :
    restLen (responsesObj (rdResponsesList rs)) ≤ restLen (responsesObj rs) := by
  induction rs with
  | nil => simp [responsesObj, rdResponsesList]
  | cons kv rest ih =>
    by_cases hk : kv.1 = "description"
    · have h3 := restLen_le_cons kv.1 kv.2.toJson (responsesObj rest)
      rw [responsesObj_cons, rdResponsesList, if_pos hk]
      omega
    · rw [responsesObj_cons, rdResponsesList, if_neg hk, responsesObj_cons]
      exact restLen_mono_cons kv.1 (rdResponse_slen_le kv.2) ih

theorem rdOperation_slen_le (o : MinifiedOperation) :
    slen (rdOperation o).toJson ≤ slen o.toJson := by
  simp only [rdOperation, MinifiedOperation.toJson]
  apply slen_obj_le_of_restLen_le
  apply restLen_mono_cons "method" (Nat.le_refl _)
  apply restLen_mono_optF "operationId" (OptLe.rfl _)
  apply restLen_mono_optF "summary" (OptLe.rfl _)
  apply restLen_mono_optF "parameters"
  case ho =>
    cases o.parameters with
    | none => exact OptLe.noneLeft _
    | some ps =>
      simp only [Option.map_some', OptLe, paramsToJson, List.map_map]
      exact slen_arr_map_mono ps _ _ (fun p _ => rdParam_slen_le p)
  apply restLen_mono_optF "requestBody"
  case ho =>
    cases o.requestBody with
    | none => exact OptLe.noneLeft _
    | some b =>
      simpa [OptLe] using rdRequestBody_slen_le b
  apply restLen_mono_cons "responses"
  case hv =>
    exact slen_obj_le_of_restLen_le (rdResponses_restLen_le o.responses)
  exact Nat.le_refl _

theorem rdPath_slen_le (p : MinifiedPath) :
    slen (rdPath p).toJson ≤ slen p.toJson := by
  simp only [rdPath, MinifiedPath.toJson]
  apply slen_obj_le_of_restLen_le
  apply restLen_mono_cons "path" (Nat.le_refl _)
  apply restLen_mono_cons "operations"
  case hv =>
    simp only [List.map_map]
    exact slen_arr_map_mono p.operations _ _ (fun op _ => rdOperation_slen_le op)
  exact Nat.le_refl _

theorem schemasObj_cons (kv : String × MinifiedSchema)
    (rest : List (String × MinifiedSchema)) :
    schemasObj (kv :: rest) = .cons kv.1 kv.2.toJson (schemasObj rest) := rfl

/-- The schema record after key filtering and description removal. -/
theorem rdSchemas_restLen_le (ss : List (String × MinifiedSchema)) :
    restLen (schemasObj (rdSchemasList ss)) ≤ restLen (schemasObj ss) := by
  induction ss with
  | nil => simp [schemasObj, rdSchemasList]
  | cons kv rest ih =>
    by_cases hk : kv.1 = "description"
    · have h3 := restLen_le_cons kv.1 kv.2.toJson (schemasObj rest)
      rw [schemasObj_cons, rdSchemasList, if_pos hk]
      omega
    · rw [schemasObj_cons, rdSchemasList, if_neg hk, schemasObj_cons]
      exact restLen_mono_cons kv.1 (rdSchema_slen_le kv.2) ih

/-! Monotonicity of `simplifySchemas`. -/

theorem restLen_le_optF (k : String) (o : Option Json) (rest : JsonObj) :
    restLen rest ≤ restLen (optF k o rest) := by
  cases o with
  | none => simp [restLen_optF_none]
  | some j => exact restLen_le_cons k j rest

/-- Every serialized schema starts with its `type` member, so it is at
least 11 characters long. -/
theorem schema_slen_ge : ∀ s : MinifiedSchema, 11 ≤ slen s.toJson
  | .mk t ref props items req en fmt => by
    have h1 : eslen "type" = 4 := by decide
    have hrest := Nat.zero_le (restLen (optF "ref" (Option.map Json.str ref)
      (optF "properties" (propsToJson props)
        (optF "items" (itemsToJson items)
          (optF "required" (Option.map strListToJson req)
            (optF "enum" (Option.map Json.arr en)
              (optF "format" (Option.map Json.str fmt) JsonObj.nil)))))))
    simp only [MinifiedSchema.toJson, slen_obj, allLen_cons, fieldLen, slen_str, h1]
    omega

theorem propsObj_nil : propsObj .nil = .nil := rfl

theorem propsObj_cons (k : String) (v : MinifiedSchema) (rest : SchemaProps) :
    propsObj (.cons k v rest) = .cons k v.toJson (propsObj rest) := rfl

/-- Each property contributes at least 15 characters to the serialized
property map. -/
theorem propsObj_restLen_ge : ∀ ps : SchemaProps, 15 * propsCount ps ≤ restLen (propsObj ps)
  | .nil => by simp [propsCount, propsObj]
  | .cons k v rest => by
    have ih := propsObj_restLen_ge rest
    have hv := schema_slen_ge v
    rw [propsObj_cons, restLen_cons]
    simp only [propsCount, fieldLen]
    omega

/-- Keeping only the first `n` properties frees at least 15 characters
per dropped property. -/
theorem propsTake_restLen_le : ∀ (ps : SchemaProps) (n : Nat),
    restLen (propsObj (propsTake n ps)) + 15 * (propsCount ps - n) ≤
      restLen (propsObj ps)
  | .nil, n => by cases n <;> simp [propsTake, propsObj, propsCount]
  | .cons k v rest, 0 => by
    have h := propsObj_restLen_ge (.cons k v rest)
    simp only [propsTake, propsObj_nil, restLen_nil]
    omega
  | .cons k v rest, n + 1 => by
    have ih := propsTake_restLen_le rest n
    have hk : propsTake (n + 1) (.cons k v rest) = .cons k v (propsTake n rest) := rfl
    rw [hk, propsObj_cons, propsObj_cons, restLen_cons, restLen_cons]
    simp only [propsCount]
    omega

/-- Exact length of the stage-2 replacement schema. -/
theorem simplified_schema_slen (q : SchemaProps) :
    slen (MinifiedSchema.mk "object" none (some q) none none none none).toJson =
      33 + allLen (propsObj q) := by
  have hJ : (MinifiedSchema.mk "object" none (some q) none none none none).toJson =
      .obj (.cons "type" (.str "object")
        (.cons "properties" (.obj (propsObj q)) .nil)) := rfl
  have htype : eslen "type" = 4 := by decide
  have hobj : eslen "object" = 6 := by decide
  have hprops : eslen "properties" = 10 := by decide
  rw [hJ]
  simp only [slen_obj, allLen_cons, restLen_cons, restLen_nil, fieldLen,
    slen_str, slen_obj, htype, hobj, hprops]
  omega

/-- Lower bound of a serialized schema that carries a property map. -/
theorem schema_with_props_slen_ge (t : String) (mr : Option Json) (P R2 : JsonObj) :
    27 + allLen P ≤
      slen (.obj (.cons "type" (.str t) (optF "ref" mr (.cons "properties" (.obj P) R2)))) := by
  have htype : eslen "type" = 4 := by decide
  have hprops : eslen "properties" = 10 := by decide
  have h1 := restLen_le_optF "ref" mr (.cons "properties" (.obj P) R2)
  simp only [restLen_cons, fieldLen, slen_obj, hprops] at h1
  simp only [slen_obj, allLen_cons, fieldLen, slen_str, htype]
  omega

/-- Keeping the first five of more than ten properties frees at least
90 characters. -/
theorem propsTake5_allLen_le (ps : SchemaProps) (h : propsCount ps > 10) :
    allLen (propsObj (propsTake 5 ps)) + 90 ≤ allLen (propsObj ps) := by
  cases ps with
  | nil => simp [propsCount] at h
  | cons k0 v0 rest0 =>
    have hsplit := propsTake_restLen_le (.cons k0 v0 rest0) 5
    have htake : propsTake 5 (.cons k0 v0 rest0) = .cons k0 v0 (propsTake 4 rest0) := rfl
    rw [htake] at hsplit
    have hA := restLen_cons_eq k0 v0.toJson (propsObj (propsTake 4 rest0))
    have hB := restLen_cons_eq k0 v0.toJson (propsObj rest0)
    rw [htake, propsObj_cons, propsObj_cons] at *
    simp only [propsCount] at h hsplit
    omega

theorem simplifyEntry_slen_le : ∀ s : MinifiedSchema,
    slen (simplifyEntry s).toJson ≤ slen s.toJson
  | .mk t ref none items req en fmt => by simp [simplifyEntry]
  | .mk t ref (some ps) items req en fmt => by
    by_cases h : propsCount ps > 10
    · have hentry : simplifyEntry (.mk t ref (some ps) items req en fmt) =
          .mk "object" none (some (propsTake 5 ps)) none none none none := by
        simp [simplifyEntry, h]
      have hJ : (MinifiedSchema.mk t ref (some ps) items req en fmt).toJson =
          .obj (.cons "type" (.str t)
            (optF "ref" (Option.map Json.str ref)
              (.cons "properties" (.obj (propsObj ps))
                (optF "items" (itemsToJson items)
                  (optF "required" (Option.map strListToJson req)
                    (optF "enum" (Option.map Json.arr en)
                      (optF "format" (Option.map Json.str fmt) .nil))))))) := rfl
      rw [hentry, hJ, simplified_schema_slen]
      have h1 := propsTake5_allLen_le ps h
      have h2 := schema_with_props_slen_ge t (Option.map Json.str ref) (propsObj ps)
        (optF "items" (itemsToJson items)
          (optF "required" (Option.map strListToJson req)
            (optF "enum" (Option.map Json.arr en)
              (optF "format" (Option.map Json.str fmt) .nil))))
      omega
    · have hentry : simplifyEntry (.mk t ref (some ps) items req en fmt) =
          .mk t ref (some ps) items req en fmt := by
        simp [simplifyEntry, h]
      rw [hentry]

/-- The schema map under a pointwise bound. -/
theorem schemasObj_map_mono (ss : List (String × MinifiedSchema))
    (f : MinifiedSchema → MinifiedSchema)
    (h : ∀ s, slen (f s).toJson ≤ slen s.toJson) :
    restLen (schemasObj (ss.map fun kv => (kv.1, f kv.2))) ≤ restLen (schemasObj ss) := by
  induction ss with
  | nil => simp [schemasObj]
  | cons kv rest ih =>
    rw [List.map_cons, schemasObj_cons, schemasObj_cons]
    exact restLen_mono_cons kv.1 (h kv.2) ih

/-- Stage 2 never lengthens the serialization. -/
theorem simplifySchemas_specLen_le (m : MinifiedSpec) :
    specLen (simplifySchemas m) ≤ specLen m := by
  simp only [specLen, simplifySchemas, specJson]
  apply slen_obj_le_of_restLen_le
  apply restLen_mono_cons "info" (Nat.le_refl _)
  apply restLen_mono_cons "paths" (Nat.le_refl _)
  apply restLen_mono_cons "schemas"
  case hv =>
    exact slen_obj_le_of_restLen_le
      (schemasObj_map_mono m.schemas simplifyEntry simplifyEntry_slen_le)
  apply restLen_mono_cons "tokenCount" (Nat.le_refl _)
  exact Nat.le_refl _

/-! Monotonicity of `reduceOperations`: sorting permutes the paths and
the greedy loop keeps a prefix, so the serialized payload shrinks. -/

theorem arrRestLen_ofList_eq_sum (l : List Json) :
    arrRestLen (jsonArrOfList l) = (l.map (fun j => 1 + slen j)).sum := by
  induction l with
  | nil => simp [jsonArrOfList_nil, arrRestLen_nil]
  | cons j rest ih => simp [jsonArrOfList_cons, arrRestLen_cons, ih]

theorem arrRestLen_perm {l1 l2 : List Json} (h : l1.Perm l2) :
    arrRestLen (jsonArrOfList l1) = arrRestLen (jsonArrOfList l2) := by
  rw [arrRestLen_ofList_eq_sum, arrRestLen_ofList_eq_sum]
  exact (h.map (fun j => 1 + slen j)).sum_eq

theorem admitPaths_arrRestLen_le (mt : Nat) : ∀ (cur : Nat) (l : List MinifiedPath),
    arrRestLen (jsonArrOfList ((admitPaths mt cur l).map MinifiedPath.toJson)) ≤
      arrRestLen (jsonArrOfList (l.map MinifiedPath.toJson))
  | _, [] => by simp [admitPaths]
  | cur, p :: rest => by
    by_cases hc : (cur + pathEstimate p) * 10 ≤ mt * 9
    · have ih := admitPaths_arrRestLen_le mt (cur + pathEstimate p) rest
      simp only [admitPaths, if_pos hc, List.map_cons, jsonArrOfList_cons, arrRestLen_cons]
      omega
    · simp only [admitPaths, if_neg hc, List.map_nil]
      exact Nat.zero_le _

/-- Stage 3 never lengthens the serialization. -/
theorem reduceOperations_specLen_le (m : MinifiedSpec) (mt : Nat) :
    specLen (reduceOperations m mt) ≤ specLen m := by
  simp only [specLen, reduceOperations, specJson]
  apply slen_obj_le_of_restLen_le
  apply restLen_mono_cons "info" (Nat.le_refl _)
  apply restLen_mono_cons "paths"
  case hv =>
    apply slen_arr_le_of_arrRestLen_le
    have hperm : (m.paths.mergeSort (fun a b => pathScore b ≤ pathScore a)).Perm m.paths :=
      List.mergeSort_perm m.paths _
    calc arrRestLen (pathsArr (admitPaths mt (baseEstimate m)
            (m.paths.mergeSort (fun a b => pathScore b ≤ pathScore a))))
        ≤ arrRestLen (jsonArrOfList
            ((m.paths.mergeSort (fun a b => pathScore b ≤ pathScore a)).map
              MinifiedPath.toJson)) :=
          admitPaths_arrRestLen_le mt (baseEstimate m) _
      _ = arrRestLen (jsonArrOfList (m.paths.map MinifiedPath.toJson)) :=
          arrRestLen_perm (hperm.map MinifiedPath.toJson)
  apply restLen_mono_cons "schemas" (Nat.le_refl _)
  apply restLen_mono_cons "tokenCount" (Nat.le_refl _)
  exact Nat.le_refl _

/-! `optimizeForTokenLimit` as a whole. The stages ignore and preserve
the `tokenCount` member, so their effect on the serialization is evaluated
with that member normalized to `0`. -/

/-- Serialized-size estimate of the specification body, taken with the
`tokenCount` member held at `0`. -/
theorem removeDescriptions_setTc (m : MinifiedSpec) (c : Nat) :
    removeDescriptions { m with tokenCount := c } =
      { removeDescriptions m with tokenCount := c } := rfl

theorem simplifySchemas_setTc (m : MinifiedSpec) (c : Nat) :
    simplifySchemas { m with tokenCount := c } =
      { simplifySchemas m with tokenCount := c } := rfl

theorem reduceOperations_setTc (m : MinifiedSpec) (mt c : Nat) :
    reduceOperations { m with tokenCount := c } mt =
      { reduceOperations m mt with tokenCount := c } := rfl

theorem estimateTokens_mono {a b : String} (h : a.length ≤ b.length) :
    estimateTokens a ≤ estimateTokens b :=
  Nat.div_le_div_right (by omega)

theorem specEstimate_mono {a b : MinifiedSpec} (h : specLen a ≤ specLen b) :
    specEstimate a ≤ specEstimate b :=
  estimateTokens_mono h

/-- Stage 1 never lengthens the serialization. -/
theorem removeDescriptions_specLen_le (m : MinifiedSpec) :
    specLen (removeDescriptions m) ≤ specLen m := by
  simp only [specLen, removeDescriptions, specJson]
  apply slen_obj_le_of_restLen_le
  apply restLen_mono_cons "info"
  case hv =>
    simp only [MinifiedInfo.toJson]
    apply slen_obj_le_of_restLen_le
    apply restLen_mono_cons "title" (Nat.le_refl _)
    apply restLen_mono_cons "version" (Nat.le_refl _)
    apply restLen_mono_optF "description" (by simp [OptLe.noneLeft])
    exact Nat.le_refl _
  apply restLen_mono_cons "paths"
  case hv =>
    simp only [pathsArr, List.map_map]
    exact slen_arr_map_mono m.paths _ _ (fun p _ => rdPath_slen_le p)
  apply restLen_mono_cons "schemas"
  case hv =>
    exact slen_obj_le_of_restLen_le (rdSchemas_restLen_le m.schemas)
  apply restLen_mono_cons "tokenCount" (Nat.le_refl _)
  exact Nat.le_refl _

/-- A specification already within budget is returned unchanged. -/
theorem optimize_within_budget (m : MinifiedSpec) (mt : Nat)
    (h : m.tokenCount ≤ mt) : optimizeForTokenLimit m mt = m := by
  simp [optimizeForTokenLimit, h]

theorem specBodyEstimate_setTc (m : MinifiedSpec) (c : Nat) :
    specBodyEstimate { m with tokenCount := c } = specBodyEstimate m := rfl

theorem removeDescriptions_bodyEstimate_le (m : MinifiedSpec) :
    specBodyEstimate (removeDescriptions m) ≤ specBodyEstimate m := by
  apply specEstimate_mono
  have h := removeDescriptions_specLen_le { m with tokenCount := 0 }
  rwa [removeDescriptions_setTc] at h

theorem simplifySchemas_bodyEstimate_le (m : MinifiedSpec) :
    specBodyEstimate (simplifySchemas m) ≤ specBodyEstimate m := by
  apply specEstimate_mono
  have h := simplifySchemas_specLen_le { m with tokenCount := 0 }
  rwa [simplifySchemas_setTc] at h

theorem reduceOperations_bodyEstimate_le (m : MinifiedSpec) (mt : Nat) :
    specBodyEstimate (reduceOperations m mt) ≤ specBodyEstimate m := by
  apply specEstimate_mono
  have h := reduceOperations_specLen_le { m with tokenCount := 0 } mt
  rwa [reduceOperations_setTc] at h

/-- End to end, the optimizer never lengthens the specification body
(the serialization with the `tokenCount` member held fixed). -/
theorem optimize_bodyEstimate_le (m : MinifiedSpec) (mt : Nat) :
    specBodyEstimate (optimizeForTokenLimit m mt) ≤ specBodyEstimate m := by
  have h1 := removeDescriptions_bodyEstimate_le m
  have h2 := simplifySchemas_bodyEstimate_le (removeDescriptions m)
  have h3 := reduceOperations_bodyEstimate_le (simplifySchemas (removeDescriptions m)) mt
  unfold optimizeForTokenLimit
  by_cases h0 : m.tokenCount ≤ mt
  · simp [h0]
  · simp only [if_neg h0]
    by_cases hb1 : specEstimate (removeDescriptions m) ≤ mt
    · simp only [if_pos hb1, specBodyEstimate_setTc]
      exact h1
    · simp only [if_neg hb1]
      by_cases hb2 : specEstimate (simplifySchemas (removeDescriptions m)) ≤ mt
      · simp only [if_pos hb2, specBodyEstimate_setTc]
        omega
      · simp only [if_neg hb2, specBodyEstimate_setTc]
        omega

/-! Truncation bounds of the minifier (claim C9). -/

theorem jsTake_length (n : Nat) (s : String) : (jsTake n s).length = min n s.length := by
  have h : (jsTake n s).length = (s.data.take n).length := rfl
  rw [h, List.length_take]
  rfl

theorem truncate_some_length {d : Option String} {maxLen : Nat} {s : String}
    (h : truncateDescription d maxLen = some s) : s.length ≤ maxLen + 3 := by
  cases d with
  | none => simp [truncateDescription] at h
  | some str =>
    simp only [truncateDescription] at h
    split at h
    · exact absurd h (by simp)
    · split at h
      · have hs : s = jsTake maxLen str ++ "..." := by
          cases h
          rfl
        have h3 : ("..." : String).length = 3 := rfl
        rw [hs, String.length_append, jsTake_length, h3]
        omega
      · have hs : s = str := by
          cases h
          rfl
        rename_i hempty hlen
        rw [hs]
        omega

theorem minify_paths_eq (d : OpenApiDoc) : (minify d).paths = minifyPaths d.paths := rfl

/-- Every operation the minifier emits satisfies the truncation bounds:
summaries are at most 203 characters, parameter descriptions at most
53, response descriptions at most 103. -/
theorem minify_truncation_bounds (d : OpenApiDoc) :
    ∀ p ∈ (minify d).paths, ∀ op ∈ p.operations,
      (∀ s, op.summary = some s → s.length ≤ 203) ∧
      (∀ params, op.parameters = some params →
        ∀ q ∈ params, ∀ s, q.description = some s → s.length ≤ 53) ∧
      (∀ kv ∈ op.responses, ∀ s, kv.2.description = some s → s.length ≤ 103) := by
  intro p hp op hop
  rw [minify_paths_eq] at hp
  simp only [minifyPaths, List.mem_filterMap] at hp
  obtain ⟨kv, hkv, hbody⟩ := hp
  split at hbody
  · exact absurd hbody (by simp)
  · cases hbody
    simp only [List.mem_filterMap] at hop
    obtain ⟨mo, hmo, hopeq⟩ := hop
    split at hopeq
    · cases hopeq
      refine ⟨?_, ?_, ?_⟩
      · intro s hs
        simp only at hs
        have := truncate_some_length hs
        omega
      · intro params hpar q hq s hqs
        simp only at hpar
        cases hparams : mo.2.parameters with
        | none => rw [hparams] at hpar; exact absurd hpar (by simp [minifyParameters])
        | some ps =>
          rw [hparams] at hpar
          simp only [minifyParameters] at hpar
          cases hpar
          simp only [List.mem_map] at hq
          obtain ⟨pr, hpr, hqeq⟩ := hq
          cases pr with
          | ref r =>
            rw [← hqeq] at hqs
            exact absurd hqs (by simp)
          | mk name inLoc req schema desc =>
            rw [← hqeq] at hqs
            simp only at hqs
            have := truncate_some_length hqs
            omega
      · intro rkv hr s hrs
        simp only at hr
        simp only [minifyResponses, List.mem_filterMap] at hr
        obtain ⟨rs, hrsmem, hreq⟩ := hr
        cases hrshape : rs.2 with
        | ref r => rw [hrshape] at hreq; exact absurd hreq (by simp)
        | mk desc content =>
          rw [hrshape] at hreq
          simp only at hreq
          cases hreq
          simp only at hrs
          have := truncate_some_length hrs
          omega
    · exact absurd hopeq (by simp)

/-! JS `Map` association-list lemmas. -/

theorem jsMapGet_nil (k : String) : jsMapGet [] k = none := rfl

theorem jsMapGet_cons (kv : String × CacheEntry) (l : List (String × CacheEntry))
    (k : String) :
    jsMapGet (kv :: l) k = if kv.1 = k then some kv.2 else jsMapGet l k := by
  simp only [jsMapGet, List.find?]
  by_cases h : kv.1 = k
  · simp [h]
  · simp [h]

theorem jsMapGet_set_self (l : List (String × CacheEntry)) (k : String) (v : CacheEntry) :
    jsMapGet (jsMapSet l k v) k = some v := by
  induction l with
  | nil => simp [jsMapSet, jsMapGet_cons]
  | cons kv rest ih =>
    by_cases h : kv.1 = k
    · simp [jsMapSet, h, jsMapGet_cons]
    · simp [jsMapSet, h, jsMapGet_cons, ih]

theorem jsMapGet_set_other (l : List (String × CacheEntry)) (k k' : String)
    (v : CacheEntry) (h : k' ≠ k) :
    jsMapGet (jsMapSet l k v) k' = jsMapGet l k' := by
  have hkk : ¬(k = k') := fun hh => h hh.symm
  induction l with
  | nil => simp [jsMapSet, jsMapGet_cons, jsMapGet_nil, hkk]
  | cons kv rest ih =>
    by_cases hk : kv.1 = k
    · simp [jsMapSet, hk, jsMapGet_cons, hkk]
    · simp only [jsMapSet, hk, if_neg, if_false]
      rw [jsMapGet_cons, jsMapGet_cons, ih]

theorem jsMapSet_of_get_none (l : List (String × CacheEntry)) (k : String)
    (v : CacheEntry) (h : jsMapGet l k = none) :
    jsMapSet l k v = l ++ [(k, v)] := by
  induction l with
  | nil => rfl
  | cons kv rest ih =>
    rw [jsMapGet_cons] at h
    by_cases hk : kv.1 = k
    · simp [hk] at h
    · simp only [hk, if_neg, if_false] at h
      simp [jsMapSet, hk, ih h]

theorem jsMapGet_none_of_not_mem (l : List (String × CacheEntry)) (k : String)
    (h : k ∉ l.map Prod.fst) : jsMapGet l k = none := by
  induction l with
  | nil => rfl
  | cons kv rest ih =>
    simp only [List.map_cons, List.mem_cons, not_or] at h
    rw [jsMapGet_cons, if_neg (fun hh => h.1 hh.symm)]
    exact ih h.2

theorem jsMapDelete_nil (k : String) : jsMapDelete [] k = [] := rfl

theorem jsMapDelete_cons (kv : String × CacheEntry) (l : List (String × CacheEntry))
    (k : String) :
    jsMapDelete (kv :: l) k = if kv.1 = k then l else kv :: jsMapDelete l k := by
  by_cases h : kv.1 = k
  · simp [jsMapDelete, List.eraseP_cons, h]
  · simp [jsMapDelete, List.eraseP_cons, h]

theorem jsMapGet_delete (l : List (String × CacheEntry)) (k0 k : String)
    (hnd : (l.map Prod.fst).Nodup) :
    jsMapGet (jsMapDelete l k0) k =
      if k = k0 then none else jsMapGet l k := by
  induction l with
  | nil => simp [jsMapDelete_nil, jsMapGet_nil]
  | cons kv rest ih =>
    simp only [List.map_cons, List.nodup_cons] at hnd
    obtain ⟨hout, hnd'⟩ := hnd
    rw [jsMapDelete_cons]
    by_cases hk : kv.1 = k0
    · rw [if_pos hk]
      by_cases hkk : k = k0
      · rw [if_pos hkk, jsMapGet_none_of_not_mem]
        rw [hkk, ← hk]
        exact hout
      · rw [if_neg hkk, jsMapGet_cons, if_neg]
        rw [hk]
        exact fun hh => hkk hh.symm
    · rw [if_neg hk, jsMapGet_cons, ih hnd']
      by_cases hkk : k = k0
      · have hne : kv.1 ≠ k := by
          rw [hkk]
          exact hk
        simp [hkk, hne, hk]
      · rw [jsMapGet_cons]
        simp [hkk]

theorem jsMapDelete_length (l : List (String × CacheEntry)) (k0 : String)
    (e : CacheEntry) (h : jsMapGet l k0 = some e) :
    (jsMapDelete l k0).length + 1 = l.length := by
  induction l with
  | nil => simp [jsMapGet_nil] at h
  | cons kv rest ih =>
    rw [jsMapGet_cons] at h
    rw [jsMapDelete_cons]
    by_cases hk : kv.1 = k0
    · simp [hk]
    · simp only [hk, if_neg, if_false] at h
      simp [hk, ih h]

/-! `MemoryCache` behaviour lemmas. -/

/-- Every `get` counts the request, never touches `storageUsed`,
and updates exactly one of `hits`/`misses`: a hit also adds the stored
entry's attributed cost to `costSavings`, a miss changes nothing else. -/
theorem memGet_step (cx : Codec) (st : MemoryCacheState) (prompt model : String)
    (temp : Rat) (params : List (String × String)) (now : Nat) :
    ((memGet cx st prompt model temp params now).2.stats.totalRequests
      = st.stats.totalRequests + 1) ∧
    ((memGet cx st prompt model temp params now).2.stats.storageUsed
      = st.stats.storageUsed) ∧
    ((∃ resp, (memGet cx st prompt model temp params now).1 = some resp) →
      (memGet cx st prompt model temp params now).2.stats.hits = st.stats.hits + 1 ∧
      (memGet cx st prompt model temp params now).2.stats.misses = st.stats.misses ∧
      ∃ e, jsMapGet st.cache (memGenerateKey cx.digest prompt model (some temp) params)
          = some e ∧
        (memGet cx st prompt model temp params now).1 = some e.value ∧
        (memGet cx st prompt model temp params now).2.stats.costSavings
          = st.stats.costSavings + e.value.usage.cost) ∧
    ((memGet cx st prompt model temp params now).1 = none →
      (memGet cx st prompt model temp params now).2.stats.misses = st.stats.misses + 1 ∧
      (memGet cx st prompt model temp params now).2.stats.hits = st.stats.hits ∧
      (memGet cx st prompt model temp params now).2.stats.costSavings
        = st.stats.costSavings) := by
  cases hget : jsMapGet st.cache (memGenerateKey cx.digest prompt model (some temp) params) with
  | none => simp [memGet, hget]
  | some e =>
    by_cases hv : isEntryValid { st with stats :=
        { st.stats with totalRequests := st.stats.totalRequests + 1 } } e now
    · simp [memGet, hget, hv]
    · simp [memGet, hget, hv]

/-- `set` never touches the request statistics (only `storageUsed`),
and preserves the configuration. -/
theorem memSet_stats (cx : Codec) (st : MemoryCacheState) (prompt model : String)
    (response : LLMResponse) (temp : Rat) (params : List (String × String)) (now : Nat) :
    ((memSet cx st prompt model response temp params now).stats.totalRequests
      = st.stats.totalRequests) ∧
    ((memSet cx st prompt model response temp params now).stats.hits = st.stats.hits) ∧
    ((memSet cx st prompt model response temp params now).stats.misses = st.stats.misses) ∧
    ((memSet cx st prompt model response temp params now).stats.costSavings
      = st.stats.costSavings) ∧
    ((memSet cx st prompt model response temp params now).maxSize = st.maxSize) ∧
    ((memSet cx st prompt model response temp params now).defaultTTL = st.defaultTTL) := by
  by_cases hcap : st.cache.length ≥ st.maxSize
  · cases hvic : evictVictim st now with
    | none => simp [memSet, hcap, evictLRU, hvic]
    | some k =>
      cases hke : jsMapGet st.cache k with
      | none => simp [memSet, hcap, evictLRU, hvic, hke]
      | some e => simp [memSet, hcap, evictLRU, hvic, hke]
  · simp [memSet, hcap]

/-- Below capacity, `set` just writes the entry. -/
theorem memSet_cache_no_evict (cx : Codec) (st : MemoryCacheState)
    (prompt model : String) (response : LLMResponse) (temp : Rat)
    (params : List (String × String)) (now : Nat)
    (hcap : st.cache.length < st.maxSize) :
    (memSet cx st prompt model response temp params now).cache =
      jsMapSet st.cache
        (memGenerateKey cx.digest prompt model (some temp) params)
        { key := memGenerateKey cx.digest prompt model (some temp) params,
          value := response,
          metadata := { created := now, accessed := now, hits := 0,
                        cost := response.usage.cost } } := by
  have h : ¬(st.cache.length ≥ st.maxSize) := by omega
  simp [memSet, h]

/-! The eviction scan. -/

theorem victimGo_no_update : ∀ (l : List (String × CacheEntry)) (best : Option String)
    (bt : Int), (∀ kv ∈ l, ¬((kv.2.metadata.accessed : Int) < bt)) →
    victimGo l best bt = best
  | [], _, _, _ => rfl
  | kv :: rest, best, bt, h => by
    have hkv := h kv (by simp)
    rw [victimGo, if_neg hkv]
    exact victimGo_no_update rest best bt (fun kv' h' => h kv' (by simp [h']))

theorem victimGo_some_mem : ∀ (l : List (String × CacheEntry)) (best : Option String)
    (bt : Int) (k : String), victimGo l best bt = some k →
    best = some k ∨ ∃ e, (k, e) ∈ l ∧ (e.metadata.accessed : Int) < bt
  | [], best, bt, k, h => Or.inl h
  | kv :: rest, best, bt, k, h => by
    rw [victimGo] at h
    by_cases hc : (kv.2.metadata.accessed : Int) < bt
    · rw [if_pos hc] at h
      rcases victimGo_some_mem rest (some kv.1) kv.2.metadata.accessed k h with h1 | ⟨e, he, hlt⟩
      · right
        refine ⟨kv.2, ?_, ?_⟩
        · have : kv.1 = k := by injection h1
          rw [← this]
          simp
        · exact hc
      · right
        exact ⟨e, by simp [he], lt_trans hlt hc⟩
    · rw [if_neg hc] at h
      rcases victimGo_some_mem rest best bt k h with h1 | ⟨e, he, hlt⟩
      · exact Or.inl h1
      · exact Or.inr ⟨e, by simp [he], hlt⟩

/-- The victim of the scan is an entry strictly older than the current
clock reading. -/
theorem evictVictim_accessed_lt (st : MemoryCacheState) (now : Nat) (k : String)
    (h : evictVictim st now = some k) :
    ∃ e, (k, e) ∈ st.cache ∧ (e.metadata.accessed : Int) < (now : Int) := by
  rcases victimGo_some_mem st.cache none now k h with h1 | h2
  · exact absurd h1 (by simp)
  · exact h2

/-- With a strictly minimal entry older than the clock, the scan finds
exactly it. -/
theorem victimGo_min (k0 : String) (e0 : CacheEntry) :
    ∀ (l : List (String × CacheEntry)) (best : Option String) (bt : Int),
    (k0, e0) ∈ l → (e0.metadata.accessed : Int) < bt →
    (∀ kv ∈ l, kv ≠ (k0, e0) →
      (e0.metadata.accessed : Int) < kv.2.metadata.accessed) →
    victimGo l best bt = some k0
  | [], _, _, hmem, _, _ => absurd hmem (by simp)
  | kv :: rest, best, bt, hmem, hbt, hmin => by
    by_cases hd : kv = (k0, e0)
    · subst hd
      rw [victimGo, if_pos hbt]
      apply victimGo_no_update
      intro kv' hkv'
      by_cases he : kv' = (k0, e0)
      · rw [he]
        simp
      · have := hmin kv' (by simp [hkv']) he
        omega
    · have hmem' : (k0, e0) ∈ rest := by
        rcases List.mem_cons.mp hmem with h1 | h1
        · exact absurd h1.symm hd
        · exact h1
      have hkvgt := hmin kv (by simp) hd
      rw [victimGo]
      by_cases hc : (kv.2.metadata.accessed : Int) < bt
      · rw [if_pos hc]
        exact victimGo_min k0 e0 rest (some kv.1) kv.2.metadata.accessed hmem' hkvgt
          (fun kv' h' hne => hmin kv' (by simp [h']) hne)
      · rw [if_neg hc]
        exact victimGo_min k0 e0 rest best bt hmem' hbt
          (fun kv' h' hne => hmin kv' (by simp [h']) hne)

theorem jsMapGet_of_mem_nodup (l : List (String × CacheEntry)) (k : String)
    (e : CacheEntry) (hnd : (l.map Prod.fst).Nodup) (hmem : (k, e) ∈ l) :
    jsMapGet l k = some e := by
  induction l with
  | nil => exact absurd hmem (by simp)
  | cons kv rest ih =>
    simp only [List.map_cons, List.nodup_cons] at hnd
    rcases List.mem_cons.mp hmem with h1 | h1
    · rw [← h1, jsMapGet_cons, if_pos rfl]
    · have hne : kv.1 ≠ k := by
        intro hh
        apply hnd.1
        have : k ∈ rest.map Prod.fst := List.mem_map.mpr ⟨(k, e), h1, rfl⟩
        rw [hh]
        exact this
      rw [jsMapGet_cons, if_neg hne]
      exact ih hnd.2 h1

theorem jsMapSet_keys_of_mem (l : List (String × CacheEntry)) (k : String)
    (v : CacheEntry) (e : CacheEntry) (h : jsMapGet l k = some e) :
    (jsMapSet l k v).map Prod.fst = l.map Prod.fst := by
  induction l with
  | nil => simp [jsMapGet_nil] at h
  | cons kv rest ih =>
    rw [jsMapGet_cons] at h
    by_cases hk : kv.1 = k
    · simp [jsMapSet, hk]
    · simp only [hk, if_neg, if_false] at h
      simp [jsMapSet, hk, ih h]

/-- A valid hit rewrites the entry in place with a fresh accessed tick
and returns the stored response. -/
theorem memGet_hit (cx : Codec) (st : MemoryCacheState) (prompt model : String)
    (temp : Rat) (params : List (String × String)) (now : Nat) (e : CacheEntry)
    (he : jsMapGet st.cache (memGenerateKey cx.digest prompt model (some temp) params)
      = some e)
    (hv : (now : Int) - (e.metadata.created : Int) < (st.defaultTTL : Int)) :
    (memGet cx st prompt model temp params now).1 = some e.value ∧
    (memGet cx st prompt model temp params now).2.cache =
      jsMapSet st.cache (memGenerateKey cx.digest prompt model (some temp) params)
        { e with metadata :=
          { e.metadata with accessed := now, hits := e.metadata.hits + 1 } } ∧
    (memGet cx st prompt model temp params now).2.maxSize = st.maxSize ∧
    (memGet cx st prompt model temp params now).2.defaultTTL = st.defaultTTL := by
  have hvb : isEntryValid { st with stats :=
      { st.stats with totalRequests := st.stats.totalRequests + 1 } } e now = true := by
    simp [isEntryValid]
    exact hv
  simp [memGet, he, hvb]

/-- A miss (no entry under the key) only counts statistics. -/
theorem memGet_miss (cx : Codec) (st : MemoryCacheState) (prompt model : String)
    (temp : Rat) (params : List (String × String)) (now : Nat)
    (he : jsMapGet st.cache (memGenerateKey cx.digest prompt model (some temp) params)
      = none) :
    (memGet cx st prompt model temp params now).1 = none ∧
    (memGet cx st prompt model temp params now).2.cache = st.cache ∧
    (memGet cx st prompt model temp params now).2.maxSize = st.maxSize ∧
    (memGet cx st prompt model temp params now).2.defaultTTL = st.defaultTTL := by
  simp [memGet, he]

/-- Inserting a fresh key into a full cache whose strictly
least-recently-accessed entry predates the clock evicts exactly that
entry: the new key is present, every other key is untouched, and the
size stays at capacity. -/
theorem memSet_evicts_lru (cx : Codec) (st : MemoryCacheState) (prompt model : String)
    (response : LLMResponse) (temp : Rat) (params : List (String × String)) (now : Nat)
    (k0 : String) (e0 : CacheEntry)
    (hnd : (st.cache.map Prod.fst).Nodup)
    (hcap : st.cache.length = st.maxSize)
    (hmem : (k0, e0) ∈ st.cache)
    (hold : (e0.metadata.accessed : Int) < (now : Int))
    (hmin : ∀ kv ∈ st.cache, kv ≠ (k0, e0) →
      (e0.metadata.accessed : Int) < (kv.2.metadata.accessed : Int))
    (hnew : jsMapGet st.cache
      (memGenerateKey cx.digest prompt model (some temp) params) = none) :
    ((memSet cx st prompt model response temp params now).cache.length = st.maxSize) ∧
    (jsMapGet (memSet cx st prompt model response temp params now).cache k0 = none) ∧
    (∀ k, k ≠ k0 →
      k ≠ memGenerateKey cx.digest prompt model (some temp) params →
      jsMapGet (memSet cx st prompt model response temp params now).cache k
        = jsMapGet st.cache k) ∧
    (jsMapGet (memSet cx st prompt model response temp params now).cache
        (memGenerateKey cx.digest prompt model (some temp) params) =
      some { key := memGenerateKey cx.digest prompt model (some temp) params,
             value := response,
             metadata := { created := now, accessed := now, hits := 0,
                           cost := response.usage.cost } }) := by
  have hk0key : k0 ≠ memGenerateKey cx.digest prompt model (some temp) params := by
    intro hh
    rw [← hh] at hnew
    rw [jsMapGet_of_mem_nodup st.cache k0 e0 hnd hmem] at hnew
    exact absurd hnew (by simp)
  have hvic : evictVictim st now = some k0 :=
    victimGo_min k0 e0 st.cache none now hmem hold hmin
  have hget0 : jsMapGet st.cache k0 = some e0 :=
    jsMapGet_of_mem_nodup st.cache k0 e0 hnd hmem
  have hcap' : st.cache.length ≥ st.maxSize := by omega
  have hcache : (memSet cx st prompt model response temp params now).cache =
      jsMapSet (jsMapDelete st.cache k0)
        (memGenerateKey cx.digest prompt model (some temp) params)
        { key := memGenerateKey cx.digest prompt model (some temp) params,
          value := response,
          metadata := { created := now, accessed := now, hits := 0,
                        cost := response.usage.cost } } := by
    simp [memSet, hcap', evictLRU, hvic, hget0]
  have hdelget : ∀ k, jsMapGet (jsMapDelete st.cache k0) k =
      if k = k0 then none else jsMapGet st.cache k :=
    fun k => jsMapGet_delete st.cache k0 k hnd
  have hdelnone : jsMapGet (jsMapDelete st.cache k0)
      (memGenerateKey cx.digest prompt model (some temp) params) = none := by
    rw [hdelget]
    by_cases hc : memGenerateKey cx.digest prompt model (some temp) params = k0
    · rw [if_pos hc]
    · rw [if_neg hc]
      exact hnew
  refine ⟨?_, ?_, ?_, ?_⟩
  · rw [hcache, jsMapSet_of_get_none _ _ _ hdelnone, List.length_append]
    have := jsMapDelete_length st.cache k0 e0 hget0
    simp only [List.length_cons, List.length_nil]
    omega
  · rw [hcache, jsMapGet_set_other _ _ _ _ hk0key, hdelget, if_pos rfl]
  · intro k hk1 hk2
    rw [hcache, jsMapGet_set_other _ _ _ _ hk2, hdelget, if_neg hk1]
  · rw [hcache, jsMapGet_set_self]

/-- After a hit, the key's accessed tick equals the clock, so it cannot
be the next eviction victim. -/
theorem memGet_refreshes_recency (cx : Codec) (st : MemoryCacheState)
    (prompt model : String) (temp : Rat) (params : List (String × String))
    (now : Nat) (e : CacheEntry)
    (hnd : (st.cache.map Prod.fst).Nodup)
    (he : jsMapGet st.cache (memGenerateKey cx.digest prompt model (some temp) params)
      = some e)
    (hv : (now : Int) - (e.metadata.created : Int) < (st.defaultTTL : Int)) :
    (jsMapGet (memGet cx st prompt model temp params now).2.cache
        (memGenerateKey cx.digest prompt model (some temp) params) =
      some { e with metadata :=
        { e.metadata with accessed := now, hits := e.metadata.hits + 1 } }) ∧
    (evictVictim (memGet cx st prompt model temp params now).2 now ≠
      some (memGenerateKey cx.digest prompt model (some temp) params)) := by
  obtain ⟨hres, hcache, hmax, httl⟩ := memGet_hit cx st prompt model temp params now e he hv
  have hget' : jsMapGet (memGet cx st prompt model temp params now).2.cache
      (memGenerateKey cx.digest prompt model (some temp) params) =
      some { e with metadata :=
        { e.metadata with accessed := now, hits := e.metadata.hits + 1 } } := by
    rw [hcache]
    exact jsMapGet_set_self _ _ _
  refine ⟨hget', ?_⟩
  intro hvic
  obtain ⟨e', hmem', hacc'⟩ := evictVictim_accessed_lt _ now _ hvic
  have hnd' : ((memGet cx st prompt model temp params now).2.cache.map Prod.fst).Nodup := by
    rw [hcache, jsMapSet_keys_of_mem _ _ _ e he]
    exact hnd
  have := jsMapGet_of_mem_nodup _ _ _ hnd' hmem'
  rw [hget'] at this
  have he' : e' = { e with metadata :=
      { e.metadata with accessed := now, hits := e.metadata.hits + 1 } } := by
    injection this.symm
  rw [he'] at hacc'
  simp at hacc'

/-! The N-sets-then-N-gets workload (claim C7). -/

theorem runSets_stats (cx : Codec) (t : Nat) : ∀ (l : List CallArgs) (st : MemoryCacheState),
    ((runSets cx t l st).stats.totalRequests = st.stats.totalRequests) ∧
    ((runSets cx t l st).stats.hits = st.stats.hits) ∧
    ((runSets cx t l st).stats.misses = st.stats.misses) ∧
    ((runSets cx t l st).stats.costSavings = st.stats.costSavings) ∧
    ((runSets cx t l st).maxSize = st.maxSize) ∧
    ((runSets cx t l st).defaultTTL = st.defaultTTL)
  | [], st => by simp [runSets]
  | a :: rest, st => by
    have hstep := memSet_stats cx st a.prompt a.model a.response a.temperature a.params t
    have ih := runSets_stats cx t rest
      (memSet cx st a.prompt a.model a.response a.temperature a.params t)
    rw [runSets]
    obtain ⟨i1, i2, i3, i4, i5, i6⟩ := ih
    obtain ⟨s1, s2, s3, s4, s5, s6⟩ := hstep
    exact ⟨i1.trans s1, i2.trans s2, i3.trans s3, i4.trans s4, i5.trans s5, i6.trans s6⟩

theorem runSets_cache (cx : Codec) (t : Nat) : ∀ (l : List CallArgs) (st : MemoryCacheState),
    (st.cache.length + l.length ≤ st.maxSize) →
    ((st.cache.map Prod.fst ++ l.map (keyOf cx)).Nodup) →
    (runSets cx t l st).cache = st.cache ++ l.map (fun a => (keyOf cx a, mkEntry cx a t))
  | [], st, _, _ => by simp [runSets]
  | a :: rest, st, hcap, hnd => by
    have hkey : keyOf cx a ∉ st.cache.map Prod.fst := by
      intro hmem
      have : ¬(st.cache.map Prod.fst ++ (a :: rest).map (keyOf cx)).Nodup := by
        simp only [List.map_cons]
        intro hn
        have hd := List.disjoint_of_nodup_append hn
        exact hd hmem (by simp)
      exact this hnd
    have hget : jsMapGet st.cache (keyOf cx a) = none :=
      jsMapGet_none_of_not_mem st.cache (keyOf cx a) hkey
    have hlen : st.cache.length < st.maxSize := by
      simp only [List.length_cons] at hcap
      omega
    have hc : (memSet cx st a.prompt a.model a.response a.temperature a.params t).cache =
        st.cache ++ [(keyOf cx a, mkEntry cx a t)] := by
      rw [memSet_cache_no_evict cx st a.prompt a.model a.response a.temperature a.params t hlen]
      exact jsMapSet_of_get_none st.cache (keyOf cx a) (mkEntry cx a t) hget
    have hms := memSet_stats cx st a.prompt a.model a.response a.temperature a.params t
    rw [runSets]
    have hcap' : (memSet cx st a.prompt a.model a.response a.temperature a.params t).cache.length
        + rest.length ≤
        (memSet cx st a.prompt a.model a.response a.temperature a.params t).maxSize := by
      rw [hc]
      simp only [List.length_append, List.length_cons, List.length_nil]
      simp only [List.length_cons] at hcap
      omega
    have hnd' : ((memSet cx st a.prompt a.model a.response a.temperature a.params t).cache.map
        Prod.fst ++ rest.map (keyOf cx)).Nodup := by
      rw [hc]
      simp only [List.map_append, List.map_cons, List.map_nil, List.append_assoc,
        List.nil_append, List.singleton_append]
      simpa using hnd
    have ih := runSets_cache cx t rest
      (memSet cx st a.prompt a.model a.response a.temperature a.params t) hcap' hnd'
    rw [ih, hc]
    simp

/-- Each stored entry of the workload is found with the creation tick. -/
theorem workload_lookup (cx : Codec) (t : Nat) :
    ∀ (l : List CallArgs), ∀ a ∈ l,
    ∃ e, jsMapGet (l.map (fun a => (keyOf cx a, mkEntry cx a t))) (keyOf cx a) = some e ∧
      e.metadata.created = t
  | [], a, ha => absurd ha (by simp)
  | b :: rest, a, ha => by
    by_cases hk : keyOf cx b = keyOf cx a
    · refine ⟨mkEntry cx b t, ?_, rfl⟩
      simp only [List.map_cons, jsMapGet_cons, hk, if_pos]
    · rcases List.mem_cons.mp ha with h1 | h1
      · rw [h1] at hk
        exact absurd rfl hk
      · obtain ⟨e, he, hc⟩ := workload_lookup cx t rest a h1
        refine ⟨e, ?_, hc⟩
        simp only [List.map_cons, jsMapGet_cons, hk, if_neg, if_false]
        exact he

/-- A run of valid-hit gets: every request lands a hit. -/
theorem runGets_hits (cx : Codec) (t : Nat) : ∀ (l : List CallArgs) (st : MemoryCacheState),
    (∀ a ∈ l, ∃ e, jsMapGet st.cache (keyOf cx a) = some e ∧
      (t : Int) - (e.metadata.created : Int) < (st.defaultTTL : Int)) →
    ((runGets cx t l st).stats.hits = st.stats.hits + l.length) ∧
    ((runGets cx t l st).stats.totalRequests = st.stats.totalRequests + l.length) ∧
    ((runGets cx t l st).stats.misses = st.stats.misses)
  | [], st, _ => by simp [runGets]
  | a :: rest, st, hpres => by
    obtain ⟨e, he, hv⟩ := hpres a (by simp)
    obtain ⟨hres, hcache, hmax, httl⟩ :=
      memGet_hit cx st a.prompt a.model a.temperature a.params t e he hv
    have hstep := memGet_step cx st a.prompt a.model a.temperature a.params t
    obtain ⟨htot, hstor, hhit, hmiss⟩ := hstep
    obtain ⟨hh1, hh2, _⟩ := hhit ⟨e.value, hres⟩
    have hpres' : ∀ b ∈ rest,
        ∃ e', jsMapGet (memGet cx st a.prompt a.model a.temperature a.params t).2.cache
          (keyOf cx b) = some e' ∧
          (t : Int) - (e'.metadata.created : Int) <
            ((memGet cx st a.prompt a.model a.temperature a.params t).2.defaultTTL : Int) := by
      intro b hb
      obtain ⟨eb, heb, hvb⟩ := hpres b (by simp [hb])
      rw [hcache, httl]
      by_cases hkb : keyOf cx b = keyOf cx a
      · refine ⟨{ e with metadata :=
          { e.metadata with accessed := t, hits := e.metadata.hits + 1 } }, ?_, ?_⟩
        · rw [hkb, keyOf, jsMapGet_set_self]
        · have heq : eb = e := by
            have heb' : jsMapGet st.cache (keyOf cx b) = some eb := heb
            rw [hkb] at heb'
            exact Option.some.inj (heb'.symm.trans he)
          simp only
          rw [← heq]
          exact hvb
      · refine ⟨eb, ?_, hvb⟩
        rw [keyOf, jsMapGet_set_other]
        · exact heb
        · rw [keyOf] at hkb
          exact hkb
    have ih := runGets_hits cx t rest
      (memGet cx st a.prompt a.model a.temperature a.params t).2 hpres'
    rw [runGets]
    simp only [List.length_cons]
    omega

/-- Fresh statistics, N distinct-key sets within capacity, then N gets
on the same keys within the TTL: the reported hit rate is 1. -/
theorem n_sets_n_gets_hitRate (cx : Codec) (l : List CallArgs) (st0 : MemoryCacheState)
    (tset tget : Nat)
    (hfresh : st0.stats = CacheStats.init)
    (hempty : st0.cache = [])
    (hnd : (l.map (keyOf cx)).Nodup)
    (hcap : l.length ≤ st0.maxSize)
    (hlen : 0 < l.length)
    (httl : (tget : Int) - (tset : Int) < (st0.defaultTTL : Int)) :
    (memGetStats (runGets cx tget l (runSets cx tset l st0))).1.hitRate = 1 := by
  have hsc := runSets_cache cx tset l st0 (by rw [hempty]; simpa using hcap)
    (by rw [hempty]; simpa using hnd)
  rw [hempty] at hsc
  simp only [List.nil_append] at hsc
  have hss := runSets_stats cx tset l st0
  have hpres : ∀ a ∈ l, ∃ e,
      jsMapGet (runSets cx tset l st0).cache (keyOf cx a) = some e ∧
      (tget : Int) - (e.metadata.created : Int) <
        ((runSets cx tset l st0).defaultTTL : Int) := by
    intro a ha
    obtain ⟨e, he, hc⟩ := workload_lookup cx tset l a ha
    refine ⟨e, ?_, ?_⟩
    · rw [hsc]
      exact he
    · rw [hc]
      have h6 := hss.2.2.2.2.2
      rw [h6]
      exact httl
  have hg := runGets_hits cx tget l (runSets cx tset l st0) hpres
  have hN : (runGets cx tget l (runSets cx tset l st0)).stats.hits = l.length := by
    have := hss.2.1
    rw [hfresh] at this
    simp [CacheStats.init] at this
    omega
  have hT : (runGets cx tget l (runSets cx tset l st0)).stats.totalRequests = l.length := by
    have := hss.1
    rw [hfresh] at this
    simp [CacheStats.init] at this
    omega
  simp only [memGetStats, hN, hT]
  rw [if_pos hlen]
  have hne : ((l.length : Nat) : Rat) ≠ 0 := by
    exact_mod_cast Nat.pos_iff_ne_zero.mp hlen
  exact div_self hne

/-! `clear()` frame effects (claim C10). -/

theorem memClear_frame (st : MemoryCacheState) :
    (memClear st).cache = [] ∧
    (memClear st).stats.storageUsed = 0 ∧
    (memClear st).stats.totalRequests = st.stats.totalRequests ∧
    (memClear st).stats.hits = st.stats.hits ∧
    (memClear st).stats.misses = st.stats.misses ∧
    (memClear st).stats.hitRate = st.stats.hitRate ∧
    (memClear st).stats.costSavings = st.stats.costSavings ∧
    (memClear st).maxSize = st.maxSize ∧
    (memClear st).defaultTTL = st.defaultTTL := by
  refine ⟨rfl, rfl, rfl, rfl, rfl, rfl, rfl, rfl, rfl⟩

theorem semConnect_of_connected (env : RedisEnv) (st : SemanticCacheState)
    (h : st.connected = true) : semConnect env st = .ok st := by
  simp [semConnect, h]

theorem semClear_frame (env : RedisEnv) (st : SemanticCacheState)
    (hconn : st.connected = true) (hkeys : env.keysOk = true) (hdel : env.delOk = true) :
    ∃ st', semClear env st = .ok st' ∧
      st'.entries = [] ∧
      st'.stats.storageUsed = 0 ∧
      st'.stats.totalRequests = st.stats.totalRequests ∧
      st'.stats.hits = st.stats.hits ∧
      st'.stats.misses = st.stats.misses ∧
      st'.stats.hitRate = st.stats.hitRate ∧
      st'.stats.costSavings = st.stats.costSavings ∧
      st'.connected = true ∧
      st'.defaultTTL = st.defaultTTL := by
  refine ⟨{ st with
            entries := [],
            savedStats := none,
            stats := { st.stats with storageUsed := 0 } },
    ?_, rfl, rfl, rfl, rfl, rfl, rfl, rfl, hconn, rfl⟩
  rw [semClear, semConnect_of_connected env st hconn]
  simp [hkeys, hdel, Bind.bind, Except.bind]

/-- After `clear()` a `get` on any previously cached key is a miss. -/
theorem memClear_then_get_miss (cx : Codec) (st : MemoryCacheState)
    (prompt model : String) (temp : Rat) (params : List (String × String)) (now : Nat) :
    (memGet cx (memClear st) prompt model temp params now).1 = none := by
  rw [memGet]
  simp only [memClear]
  rfl

/-! `SemanticCache.get` under store failures (claim C5). -/

/-- `connect()` sits outside the try/catch of `get`: a connection
failure while disconnected escapes the call as a thrown error. -/
theorem semGet_connect_failure (cx : Codec) (env : RedisEnv) (st : SemanticCacheState)
    (prompt model : String) (temp : Rat) (params : List (String × String)) (now : Nat)
    (hconn : st.connected = false) (hok : env.connectOk = false) :
    semGet cx env st prompt model temp params now = .error () := by
  rw [semGet, semConnect]
  simp [hconn, hok, Bind.bind, Except.bind]

/-- A store failure inside the try/catch of a connected `get` is
swallowed: the call returns a miss and counts it. -/
theorem semGet_store_failure_miss (cx : Codec) (env : RedisEnv) (st : SemanticCacheState)
    (prompt model : String) (temp : Rat) (params : List (String × String)) (now : Nat)
    (hconn : st.connected = true) (hget : env.getOk = false) :
    ∃ st', semGet cx env st prompt model temp params now = .ok (none, st') ∧
      st'.stats.misses = st.stats.misses + 1 ∧
      st'.stats.totalRequests = st.stats.totalRequests + 1 ∧
      st'.stats.hits = st.stats.hits ∧
      st'.stats.costSavings = st.stats.costSavings ∧
      st'.entries = st.entries := by
  refine ⟨{ st with
            stats := { st.stats with
                       totalRequests := st.stats.totalRequests + 1,
                       misses := st.stats.misses + 1 } },
    ?_, rfl, rfl, rfl, rfl, rfl⟩
  rw [semGet, semConnect_of_connected env st hconn]
  simp [hget, Bind.bind, Except.bind]

/-! Key derivation (claim C2). -/

theorem memGenerateKey_congr (digest : Digest) (p1 p2 model : String)
    (temp : Option Rat) (params : List (String × String))
    (h : normalizePrompt p1 = normalizePrompt p2) :
    memGenerateKey digest p1 model temp params
      = memGenerateKey digest p2 model temp params := by
  simp only [memGenerateKey, h]

theorem semGenerateKey_congr (digest : Digest) (p1 p2 model : String)
    (temp : Option Rat) (params : List (String × String))
    (h : normalizePrompt p1 = normalizePrompt p2) :
    semGenerateKey digest p1 model temp params
      = semGenerateKey digest p2 model temp params := by
  simp only [semGenerateKey, memGenerateKey_congr digest p1 p2 model temp params h]

/-- Contrapositive: keys differ only when some input component differs
after normalization. -/
theorem memGenerateKey_ne_inputs (digest : Digest) (p1 p2 m1 m2 : String)
    (t1 t2 : Option Rat) (a1 a2 : List (String × String))
    (h : memGenerateKey digest p1 m1 t1 a1 ≠ memGenerateKey digest p2 m2 t2 a2) :
    normalizePrompt p1 ≠ normalizePrompt p2 ∨ m1 ≠ m2 ∨ t1 ≠ t2 ∨ a1 ≠ a2 := by
  by_contra hne
  push_neg at hne
  obtain ⟨hp, hm, ht, ha⟩ := hne
  apply h
  simp only [memGenerateKey, hp, hm, ht, ha]

/-- A digest of fixed width gives keys of fixed width (64 bare, 77 with
the `mcpgen:cache:` namespace). -/
theorem generateKey_length (digest : Digest) (hw : ∀ kd, (digest kd).length = 64)
    (prompt model : String) (temp : Option Rat) (params : List (String × String)) :
    (memGenerateKey digest prompt model temp params).length = 64 ∧
    (semGenerateKey digest prompt model temp params).length = 77 := by
  constructor
  · exact hw _
  · have h1 : cachePref.length = 13 := rfl
    simp only [semGenerateKey, String.length_append, h1, memGenerateKey, hw]

/-! The orchestrator (claim C4). -/

theorem jsMapGet_delete_none (k0 : String) : ∀ (l : List (String × CacheEntry)) (k : String),
    jsMapGet l k = none → jsMapGet (jsMapDelete l k0) k = none
  | [], k, _ => rfl
  | kv :: rest, k, h => by
    rw [jsMapGet_cons] at h
    by_cases hk : kv.1 = k
    · rw [if_pos hk] at h
      exact absurd h (by simp)
    · rw [if_neg hk] at h
      rw [jsMapDelete_cons]
      by_cases h0 : kv.1 = k0
      · rw [if_pos (by simp [h0])]
        exact h
      · rw [if_neg (by simp [h0])]
        rw [jsMapGet_cons, if_neg hk]
        exact jsMapGet_delete_none k0 rest k h

theorem jsMapGet_set_none_other (k0 : String) (v : CacheEntry) :
    ∀ (l : List (String × CacheEntry)) (k : String), k ≠ k0 →
    jsMapGet l k = none → jsMapGet (jsMapSet l k0 v) k = none
  | [], k, hne, _ => by
    simp only [jsMapSet, jsMapGet_cons]
    rw [if_neg (fun h => hne h.symm)]
    rfl
  | kv :: rest, k, hne, h => by
    rw [jsMapGet_cons] at h
    by_cases hk : kv.1 = k
    · rw [if_pos hk] at h
      exact absurd h (by simp)
    · rw [if_neg hk] at h
      rw [jsMapSet]
      by_cases h0 : kv.1 = k0
      · rw [if_pos h0, jsMapGet_cons, if_neg hk]
        exact h
      · rw [if_neg h0, jsMapGet_cons, if_neg hk]
        exact jsMapGet_set_none_other k0 v rest k hne h

/-- `evictLRU` never introduces a key. -/
theorem evictLRU_preserves_none (cx : Codec) (st : MemoryCacheState) (now : Nat)
    (k : String) (h : jsMapGet st.cache k = none) :
    jsMapGet (evictLRU cx st now).cache k = none := by
  rw [evictLRU]
  cases evictVictim st now with
  | none => exact h
  | some k0 => exact jsMapGet_delete_none k0 st.cache k h

/-- A `set` under one key leaves an absent other key absent. -/
theorem memSet_preserves_none_other (cx : Codec) (st : MemoryCacheState)
    (prompt model : String) (response : LLMResponse) (temp : Rat)
    (params : List (String × String)) (now : Nat) (k : String)
    (hne : k ≠ memGenerateKey cx.digest prompt model (some temp) params)
    (h : jsMapGet st.cache k = none) :
    jsMapGet (memSet cx st prompt model response temp params now).cache k = none := by
  rw [memSet]
  by_cases hcap : st.cache.length ≥ st.maxSize
  · rw [if_pos hcap]
    exact jsMapGet_set_none_other _ _ _ _ hne (evictLRU_preserves_none cx st now k h)
  · rw [if_neg hcap]
    exact jsMapGet_set_none_other _ _ _ _ hne h

/-- A `get` never introduces a key it was not asked for; in particular
an absent key stays absent. -/
theorem memGet_preserves_none (cx : Codec) (st : MemoryCacheState)
    (prompt model : String) (temp : Rat) (params : List (String × String)) (now : Nat)
    (k : String) (h : jsMapGet st.cache k = none) :
    jsMapGet (memGet cx st prompt model temp params now).2.cache k = none := by
  rw [memGet]
  cases hg : jsMapGet st.cache (memGenerateKey cx.digest prompt model (some temp) params) with
  | none => exact h
  | some e =>
    have hne : k ≠ memGenerateKey cx.digest prompt model (some temp) params := by
      intro hk
      rw [hk, hg] at h
      exact absurd h (by simp)
    dsimp only
    split
    · exact jsMapGet_set_none_other _ _ _ _ hne h
    · exact jsMapGet_delete_none _ _ _ h

/-- One tool document per tool, always: no failure removes a slot. -/
theorem genToolDocs_length (cx : Codec) (env : DocGenEnv) (now : Nat) :
    ∀ (tools : List MCPTool) (st : MemoryCacheState),
    (genToolDocs cx env now tools st).1.length = tools.length
  | [], st => rfl
  | tool :: rest, st => by
    rw [genToolDocs]
    cases hg : memGet cx st (toolDocCacheKey tool) env.providerName (7/10) [] now with
    | mk r st1 =>
      cases r with
      | some cached =>
        dsimp only
        have ih := genToolDocs_length cx env now rest st1
        cases he : genToolDocs cx env now rest st1 with
        | mk docs p2 =>
          rw [he] at ih
          dsimp only at ih ⊢
          simp only [List.length_cons]
          omega
      | none =>
        dsimp only
        cases env.provider (env.renderToolDoc tool) with
        | ok resp =>
          dsimp only
          have ih := genToolDocs_length cx env now rest (memSet cx st1 (toolDocCacheKey tool) env.providerName { resp with content := env.serToolDoc (env.parseToolDoc resp.content tool) } (7/10) [] now)
          cases he : genToolDocs cx env now rest (memSet cx st1 (toolDocCacheKey tool) env.providerName { resp with content := env.serToolDoc (env.parseToolDoc resp.content tool) } (7/10) [] now) with
          | mk docs p2 =>
            rw [he] at ih
            dsimp only at ih ⊢
            simp only [List.length_cons]
            omega
        | error e =>
          dsimp only
          have ih := genToolDocs_length cx env now rest st1
          cases he : genToolDocs cx env now rest st1 with
          | mk docs p2 =>
            rw [he] at ih
            dsimp only at ih ⊢
            simp only [List.length_cons]
            omega

/-- The per-tool outcome of a documentation run on a cold cache (every
derived key absent, keys pairwise distinct): a successful provider call
contributes its parsed document, a failing one contributes the
deterministic fallback — in place, with every sibling untouched — and
each tool's prompt is sent. -/
theorem genToolDocs_cold (cx : Codec) (env : DocGenEnv) (now : Nat) :
    ∀ (tools : List MCPTool) (st : MemoryCacheState),
    (∀ t ∈ tools, jsMapGet st.cache (docKeyOf cx env t) = none) →
    ((tools.map (docKeyOf cx env)).Nodup) →
    (genToolDocs cx env now tools st).1 =
      tools.map (fun t => match env.provider (env.renderToolDoc t) with
        | .ok resp => env.parseToolDoc resp.content t
        | .error _ => generateFallbackToolDoc t) ∧
    (genToolDocs cx env now tools st).2.1 = tools.map (fun t => env.renderToolDoc t)
  | [], st, _, _ => ⟨rfl, rfl⟩
  | tool :: rest, st, hmiss, hnd => by
    have hm0 : jsMapGet st.cache (docKeyOf cx env tool) = none := hmiss tool (by simp)
    obtain ⟨h1, h2, _, _⟩ :=
      memGet_miss cx st (toolDocCacheKey tool) env.providerName (7/10) [] now hm0
    have hcons : (∀ x ∈ rest, ¬docKeyOf cx env x = docKeyOf cx env tool) ∧
        (rest.map (docKeyOf cx env)).Nodup := by simpa using hnd
    have hnd' := hcons.2
    have hne_rest : ∀ t ∈ rest, docKeyOf cx env t ≠ docKeyOf cx env tool := hcons.1
    rw [genToolDocs]
    cases hg : memGet cx st (toolDocCacheKey tool) env.providerName (7/10) [] now with
    | mk r st1 =>
      rw [hg] at h1 h2
      dsimp only at h1 h2
      subst h1
      dsimp only
      cases hp : env.provider (env.renderToolDoc tool) with
      | ok resp =>
        have hmiss2 : ∀ t ∈ rest,
            jsMapGet (memSet cx st1 (toolDocCacheKey tool) env.providerName { resp with content := env.serToolDoc (env.parseToolDoc resp.content tool) } (7/10) [] now).cache (docKeyOf cx env t) = none := by
          intro t ht
          apply memSet_preserves_none_other
          · exact hne_rest t ht
          · rw [h2]
            exact hmiss t (by simp [ht])
        have ih := genToolDocs_cold cx env now rest (memSet cx st1 (toolDocCacheKey tool) env.providerName { resp with content := env.serToolDoc (env.parseToolDoc resp.content tool) } (7/10) [] now) hmiss2 hnd'
        cases he : genToolDocs cx env now rest (memSet cx st1 (toolDocCacheKey tool) env.providerName { resp with content := env.serToolDoc (env.parseToolDoc resp.content tool) } (7/10) [] now) with
        | mk docs p2 =>
          rw [he] at ih
          obtain ⟨calls, st2⟩ := p2
          dsimp only at ih ⊢
          simp only [List.map_cons, hp]
          refine ⟨?_, ?_⟩
          · try rw [he]
            try dsimp only
            rw [ih.1]
          · try rw [he]
            try dsimp only
            rw [ih.2]
      | error err =>
        have hmiss1 : ∀ t ∈ rest, jsMapGet st1.cache (docKeyOf cx env t) = none := by
          intro t ht
          rw [h2]
          exact hmiss t (by simp [ht])
        have ih := genToolDocs_cold cx env now rest st1 hmiss1 hnd'
        cases he : genToolDocs cx env now rest st1 with
        | mk docs p2 =>
          rw [he] at ih
          obtain ⟨calls, st2⟩ := p2
          dsimp only at ih ⊢
          simp only [List.map_cons, hp]
          refine ⟨?_, ?_⟩
          · try rw [he]
            try dsimp only
            rw [ih.1]
          · try rw [he]
            try dsimp only
            rw [ih.2]

/-- The per-tool outcome of a code-example run on a cold cache: a
failing task contributes nothing at all (`filterMap`), although its
prompt was sent. -/
theorem genCodeExamplesLoop_cold (cx : Codec) (env : DocGenEnv) (language : String)
    (now : Nat) :
    ∀ (tools : List MCPTool) (st : MemoryCacheState),
    (∀ t ∈ tools, jsMapGet st.cache (exampleKeyOf cx env language t) = none) →
    ((tools.map (exampleKeyOf cx env language)).Nodup) →
    (genCodeExamplesLoop cx env language now tools st).1 =
      tools.filterMap (fun t => match env.provider (env.renderExample t) with
        | .ok resp => some (env.parseExample resp.content t language)
        | .error _ => none) ∧
    (genCodeExamplesLoop cx env language now tools st).2.1 =
      tools.map (fun t => env.renderExample t)
  | [], st, _, _ => ⟨rfl, rfl⟩
  | tool :: rest, st, hmiss, hnd => by
    have hm0 : jsMapGet st.cache (exampleKeyOf cx env language tool) = none :=
      hmiss tool (by simp)
    obtain ⟨h1, h2, _, _⟩ :=
      memGet_miss cx st (exampleCacheKey tool language) env.providerName (7/10) [] now hm0
    have hcons : (∀ x ∈ rest, ¬exampleKeyOf cx env language x = exampleKeyOf cx env language tool) ∧
        (rest.map (exampleKeyOf cx env language)).Nodup := by simpa using hnd
    have hnd' := hcons.2
    have hne_rest : ∀ t ∈ rest,
        exampleKeyOf cx env language t ≠ exampleKeyOf cx env language tool := hcons.1
    rw [genCodeExamplesLoop]
    cases hg : memGet cx st (exampleCacheKey tool language) env.providerName (7/10) [] now with
    | mk r st1 =>
      rw [hg] at h1 h2
      dsimp only at h1 h2
      subst h1
      dsimp only
      cases hp : env.provider (env.renderExample tool) with
      | ok resp =>
        have hmiss2 : ∀ t ∈ rest,
            jsMapGet (memSet cx st1 (exampleCacheKey tool language) env.providerName { resp with content := env.serExample (env.parseExample resp.content tool language) } (7/10) [] now).cache (exampleKeyOf cx env language t) = none := by
          intro t ht
          apply memSet_preserves_none_other
          · exact hne_rest t ht
          · rw [h2]
            exact hmiss t (by simp [ht])
        have ih := genCodeExamplesLoop_cold cx env language now rest (memSet cx st1 (exampleCacheKey tool language) env.providerName { resp with content := env.serExample (env.parseExample resp.content tool language) } (7/10) [] now) hmiss2 hnd'
        cases he : genCodeExamplesLoop cx env language now rest (memSet cx st1 (exampleCacheKey tool language) env.providerName { resp with content := env.serExample (env.parseExample resp.content tool language) } (7/10) [] now) with
        | mk exs p2 =>
          rw [he] at ih
          obtain ⟨calls, st2⟩ := p2
          dsimp only at ih ⊢
          simp only [List.filterMap_cons, List.map_cons, hp]
          refine ⟨?_, ?_⟩
          · try rw [he]
            try dsimp only
            rw [ih.1]
          · try rw [he]
            try dsimp only
            rw [ih.2]
      | error err =>
        have hmiss1 : ∀ t ∈ rest, jsMapGet st1.cache (exampleKeyOf cx env language t) = none := by
          intro t ht
          rw [h2]
          exact hmiss t (by simp [ht])
        have ih := genCodeExamplesLoop_cold cx env language now rest st1 hmiss1 hnd'
        cases he : genCodeExamplesLoop cx env language now rest st1 with
        | mk exs p2 =>
          rw [he] at ih
          obtain ⟨calls, st2⟩ := p2
          dsimp only at ih ⊢
          simp only [List.filterMap_cons, List.map_cons, hp]
          refine ⟨?_, ?_⟩
          · try rw [he]
            try dsimp only
            rw [ih.1]
          · try rw [he]
            try dsimp only
            rw [ih.2]

/-! The claims. -/

set_option maxRecDepth 100000

/-- C1: Each stage of `optimizeForTokenLimit` (description removal,
schema simplification, priority-ranked path reduction) never lengthens
the serialization; end to end the optimizer never increases the body
estimate (the estimate of the serialization with `tokenCount` held
fixed); a specification already within budget is returned unchanged;
and the function is total, so the maximally reduced specification is
returned without an error. (The claim as stated on the full estimate —
including the digits of the rewritten `tokenCount` member — fails:
`C1_counterexample`.) -/
theorem C1_optimize_monotone (m : MinifiedSpec) (mt : Nat) :
    specLen (removeDescriptions m) ≤ specLen m ∧
    specLen (simplifySchemas m) ≤ specLen m ∧
    specLen (reduceOperations m mt) ≤ specLen m ∧
    specBodyEstimate (optimizeForTokenLimit m mt) ≤ specBodyEstimate m ∧
    (m.tokenCount ≤ mt → optimizeForTokenLimit m mt = m) :=
  ⟨removeDescriptions_specLen_le m, simplifySchemas_specLen_le m,
   reduceOperations_specLen_le m mt, optimize_bodyEstimate_le m mt,
   fun h => optimize_within_budget m mt h⟩

theorem C1_optimize_monotone_witness :
    mEx2.tokenCount ≤ 3 ∧ optimizeForTokenLimit mEx2 3 = mEx2 :=
  ⟨by decide, (C1_optimize_monotone mEx2 3).2.2.2.2 (by decide)⟩

/-- C1 counterexample: at budget `0` the final `tokenCount` rewrite of
`mEx1` (`5` → `20`, one digit more) lengthens the serialization, so the
output's own token estimate (21) exceeds the input's (20). -/
theorem C1_counterexample :
    specEstimate mEx1 = 20 ∧ specEstimate (optimizeForTokenLimit mEx1 0) = 21 := by
  refine ⟨by decide, ?_⟩
  have hrd : simplifySchemas (removeDescriptions mEx1) = mEx1red := rfl
  have hro : reduceOperations mEx1red 0 = mEx1red := by
    simp [reduceOperations, List.mergeSort_nil, admitPaths, mEx1red]
  unfold optimizeForTokenLimit
  rw [if_neg (by decide), if_neg (by decide), if_neg (by decide), hrd, hro]
  decide

/-- C2: cache key derivation is a pure function of the normalized
prompt, the model and the parameters: prompts equal after trim /
whitespace collapse / lowercasing, with equal other inputs, collide to
the identical key in both cache variants; a fixed-width (64-character)
digest yields fixed-width keys (64 bare, 77 with the `mcpgen:cache:`
namespace); and distinct keys imply some input differs after
normalization. -/
theorem C2_generateKey_normalization (digest : Digest) (p1 p2 m1 m2 : String)
    (t1 t2 : Option Rat) (a1 a2 : List (String × String)) :
    (normalizePrompt p1 = normalizePrompt p2 → m1 = m2 → t1 = t2 → a1 = a2 →
      memGenerateKey digest p1 m1 t1 a1 = memGenerateKey digest p2 m2 t2 a2 ∧
      semGenerateKey digest p1 m1 t1 a1 = semGenerateKey digest p2 m2 t2 a2) ∧
    ((∀ kd, (digest kd).length = 64) →
      (memGenerateKey digest p1 m1 t1 a1).length = 64 ∧
      (semGenerateKey digest p1 m1 t1 a1).length = 77) ∧
    (memGenerateKey digest p1 m1 t1 a1 ≠ memGenerateKey digest p2 m2 t2 a2 →
      normalizePrompt p1 ≠ normalizePrompt p2 ∨ m1 ≠ m2 ∨ t1 ≠ t2 ∨ a1 ≠ a2) := by
  refine ⟨?_, ?_, ?_⟩
  · intro hp hm ht ha
    subst hm
    subst ht
    subst ha
    exact ⟨memGenerateKey_congr digest p1 p2 m1 t1 a1 hp,
           semGenerateKey_congr digest p1 p2 m1 t1 a1 hp⟩
  · intro hw
    exact generateKey_length digest hw p1 m1 t1 a1
  · exact memGenerateKey_ne_inputs digest p1 p2 m1 m2 t1 t2 a1 a2

theorem C2_generateKey_normalization_witness :
    normalizePrompt "  Hello   World " = normalizePrompt "hello world" ∧
    memGenerateKey digest64 "  Hello   World " "m" none []
      = memGenerateKey digest64 "hello world" "m" none [] ∧
    (semGenerateKey digest64 "q" "q2" none []).length = 77 ∧
    (normalizePrompt "a" ≠ normalizePrompt "b" ∨ ("m" : String) ≠ "m" ∨
      (none : Option Rat) ≠ none ∨ ([] : List (String × String)) ≠ []) :=
  ⟨by decide,
   ((C2_generateKey_normalization digest64 "  Hello   World " "hello world" "m" "m"
      none none [] []).1 (by decide) rfl rfl rfl).1,
   ((C2_generateKey_normalization digest64 "q" "q" "q2" "q2" none none [] []).2.1
      (fun kd => rfl)).2,
   (C2_generateKey_normalization cxEx.digest "a" "b" "m" "m" none none [] []).2.2
      (by decide)⟩

/-- C3: the token count carried by a compressed specification: `minify`
stores the estimate of the serialization taken while the field still
holds `0` (a pure function of the serialized body), but
`minifyForOperation` returns `tokenCount = 0` without ever computing an
estimate — so the count is not recomputed after every construction and
is not in general the estimate of the emitted structure
(`C3_counterexample`). -/
theorem C3_tokenCount (d : OpenApiDoc) (ops : List String) :
    (minify d).tokenCount = specBodyEstimate (minify d) ∧
    (minifyForOperation d ops).tokenCount = 0 :=
  ⟨rfl, rfl⟩

/-- C3 counterexample: `minifyForOperation` emits a structure whose
serialization estimates to 39 tokens while carrying `tokenCount = 0`. -/
theorem C3_counterexample :
    (minifyForOperation dEx1 ["op1"]).tokenCount = 0 ∧
    specEstimate (minifyForOperation dEx1 ["op1"]) = 39 :=
  ⟨rfl, by decide⟩

/-- C4: failure isolation in the orchestrator. Tool documentation: one
document per tool always, and on a cold cache a failing provider call
contributes the deterministic fallback document in place, with every
sibling's output untouched. Code examples: a failing task contributes
nothing at all (no fallback), although its prompt was sent
(`C4_counterexample`). -/
theorem C4_failure_isolation (cx : Codec) (env : DocGenEnv) (language : String)
    (now : Nat) (tools : List MCPTool) (st : MemoryCacheState) :
    ((genToolDocs cx env now tools st).1.length = tools.length) ∧
    ((∀ t ∈ tools, jsMapGet st.cache (docKeyOf cx env t) = none) →
      (tools.map (docKeyOf cx env)).Nodup →
      (genToolDocs cx env now tools st).1 =
        tools.map (fun t => match env.provider (env.renderToolDoc t) with
          | .ok resp => env.parseToolDoc resp.content t
          | .error _ => generateFallbackToolDoc t) ∧
      (genToolDocs cx env now tools st).2.1 = tools.map (fun t => env.renderToolDoc t)) ∧
    ((∀ t ∈ tools, jsMapGet st.cache (exampleKeyOf cx env language t) = none) →
      (tools.map (exampleKeyOf cx env language)).Nodup →
      (genCodeExamplesLoop cx env language now tools st).1 =
        tools.filterMap (fun t => match env.provider (env.renderExample t) with
          | .ok resp => some (env.parseExample resp.content t language)
          | .error _ => none) ∧
      (genCodeExamplesLoop cx env language now tools st).2.1 =
        tools.map (fun t => env.renderExample t)) :=
  ⟨genToolDocs_length cx env now tools st,
   fun h1 h2 => genToolDocs_cold cx env now tools st h1 h2,
   fun h1 h2 => genCodeExamplesLoop_cold cx env language now tools st h1 h2⟩

theorem C4_failure_isolation_witness :
    (([toolA, toolB].map (docKeyOf cxEx envEx)).Nodup) ∧
    (genToolDocs cxEx envEx 0 [toolA, toolB] MemoryCacheState.init).1.length = 2 ∧
    (genCodeExamplesLoop cxEx envEx "ts" 0 [toolA, toolB] MemoryCacheState.init).1 =
      [toolA, toolB].filterMap (fun t => match envEx.provider (envEx.renderExample t) with
        | .ok resp => some (envEx.parseExample resp.content t "ts")
        | .error _ => none) :=
  ⟨by decide,
   (C4_failure_isolation cxEx envEx "ts" 0 [toolA, toolB] MemoryCacheState.init).1,
   ((C4_failure_isolation cxEx envEx "ts" 0 [toolA, toolB] MemoryCacheState.init).2.2
      (fun t ht => rfl) (by decide)).1⟩

/-- C4 counterexample: two example tasks, the second provider call
fails; both prompts were sent, yet the aggregate result holds a single
example — no fallback content for the failed task. -/
theorem C4_counterexample :
    (genCodeExamples cxEx envEx "ts" 0 [toolA, toolB] MemoryCacheState.init).2.1
      = ["exA", "exB"] ∧
    (genCodeExamples cxEx envEx "ts" 0 [toolA, toolB] MemoryCacheState.init).1.length = 1 :=
  ⟨by decide, by decide⟩

/-- C5: a store failure inside the try/catch of a connected `get` is
swallowed and counted as a miss. But `connect()` runs before the
try/catch: a connection failure while disconnected escapes `get` as a
thrown error, so such failures do propagate to the caller
(`C5_counterexample`). -/
theorem C5_get_failure (cx : Codec) (env : RedisEnv) (st : SemanticCacheState)
    (prompt model : String) (temp : Rat) (params : List (String × String)) (now : Nat) :
    (st.connected = true → env.getOk = false →
      ∃ st', semGet cx env st prompt model temp params now = .ok (none, st') ∧
        st'.stats.misses = st.stats.misses + 1 ∧
        st'.stats.totalRequests = st.stats.totalRequests + 1 ∧
        st'.stats.hits = st.stats.hits ∧
        st'.entries = st.entries) ∧
    (st.connected = false → env.connectOk = false →
      semGet cx env st prompt model temp params now = .error ()) := by
  constructor
  · intro h1 h2
    obtain ⟨st', ha, hb, hc, hd, _, hf⟩ :=
      semGet_store_failure_miss cx env st prompt model temp params now h1 h2
    exact ⟨st', ha, hb, hc, hd, hf⟩
  · exact semGet_connect_failure cx env st prompt model temp params now

theorem C5_get_failure_witness :
    semStC.connected = true ∧ redisGetDown.getOk = false ∧
    (∃ st', semGet cxEx redisGetDown semStC "p" "m" (7/10) [] 0 = .ok (none, st') ∧
      st'.stats.misses = semStC.stats.misses + 1 ∧
      st'.stats.totalRequests = semStC.stats.totalRequests + 1 ∧
      st'.stats.hits = semStC.stats.hits ∧
      st'.entries = semStC.entries) :=
  ⟨rfl, rfl, (C5_get_failure cxEx redisGetDown semStC "p" "m" (7/10) [] 0).1 rfl rfl⟩

/-- C5 counterexample: a `get` on a disconnected cache with an
unreachable redis returns the thrown connection error, not a miss. -/
theorem C5_counterexample :
    semGet cxEx redisDown semStEx "p" "m" (7/10) [] 0 = .error () := rfl

/-- C6: amended LRU behaviour. Inserting a fresh key into a full cache
whose strictly least-recently-accessed entry predates the clock evicts
exactly that entry (capacity kept, victim gone, other keys untouched,
new key present); and a valid hit rewrites the key's accessed tick to
the clock, after which it cannot be the next eviction victim. (With
equal ticks the strict `<` scan seeded with `Date.now()` selects no
victim at all and the cache exceeds capacity: `C6_counterexample`.) -/
theorem C6_lru (cx : Codec) (st : MemoryCacheState) (prompt model : String)
    (response : LLMResponse) (temp : Rat) (params : List (String × String)) (now : Nat)
    (k0 : String) (e0 e : CacheEntry) :
    ((st.cache.map Prod.fst).Nodup →
     st.cache.length = st.maxSize →
     (k0, e0) ∈ st.cache →
     (e0.metadata.accessed : Int) < (now : Int) →
     (∀ kv ∈ st.cache, kv ≠ (k0, e0) →
       (e0.metadata.accessed : Int) < (kv.2.metadata.accessed : Int)) →
     jsMapGet st.cache (memGenerateKey cx.digest prompt model (some temp) params) = none →
     ((memSet cx st prompt model response temp params now).cache.length = st.maxSize) ∧
     (jsMapGet (memSet cx st prompt model response temp params now).cache k0 = none) ∧
     (∀ k, k ≠ k0 → k ≠ memGenerateKey cx.digest prompt model (some temp) params →
       jsMapGet (memSet cx st prompt model response temp params now).cache k
         = jsMapGet st.cache k) ∧
     (jsMapGet (memSet cx st prompt model response temp params now).cache
         (memGenerateKey cx.digest prompt model (some temp) params) ≠ none)) ∧
    ((st.cache.map Prod.fst).Nodup →
     jsMapGet st.cache (memGenerateKey cx.digest prompt model (some temp) params) = some e →
     (now : Int) - (e.metadata.created : Int) < (st.defaultTTL : Int) →
     evictVictim (memGet cx st prompt model temp params now).2 now ≠
       some (memGenerateKey cx.digest prompt model (some temp) params)) := by
  constructor
  · intro h1 h2 h3 h4 h5 h6
    obtain ⟨ha, hb, hc, hd⟩ :=
      memSet_evicts_lru cx st prompt model response temp params now k0 e0 h1 h2 h3 h4 h5 h6
    refine ⟨ha, hb, hc, ?_⟩
    rw [hd]
    simp
  · intro h1 he hv
    exact (memGet_refreshes_recency cx st prompt model temp params now e h1 he hv).2

theorem C6_lru_witness :
    ((memSet cxEx stFull "q" "m" respEx (7/10) [] 1).cache.length = stFull.maxSize ∧
     jsMapGet (memSet cxEx stFull "q" "m" respEx (7/10) [] 1).cache "p" = none ∧
     (∀ k, k ≠ "p" → k ≠ memGenerateKey cxEx.digest "q" "m" (some (7/10)) [] →
       jsMapGet (memSet cxEx stFull "q" "m" respEx (7/10) [] 1).cache k
         = jsMapGet stFull.cache k) ∧
     jsMapGet (memSet cxEx stFull "q" "m" respEx (7/10) [] 1).cache
       (memGenerateKey cxEx.digest "q" "m" (some (7/10)) []) ≠ none) ∧
    evictVictim (memGet cxEx stFull "p" "m" (7/10) [] 0).2 0 ≠
      some (memGenerateKey cxEx.digest "p" "m" (some (7/10)) []) :=
  ⟨(C6_lru cxEx stFull "q" "m" respEx (7/10) [] 1 "p" entryP entryP).1
     (by decide) rfl (List.mem_cons_self _ _) (by decide)
     (fun kv hkv hne => absurd (List.mem_singleton.mp hkv) hne) (by decide),
   (C6_lru cxEx stFull "p" "m" respEx (7/10) [] 0 "p" entryP entryP).2
     (by decide) rfl (by decide)⟩

/-- C6 counterexample: two same-tick inserts into a capacity-1 cache
evict nothing (the strict `<` against the clock-seeded best never
fires), leaving two entries beyond capacity — not "exactly one
eviction". -/
theorem C6_counterexample :
    (memSet cxEx (memSet cxEx (MemoryCacheState.init 1) "a" "m" respEx (7/10) [] 0)
        "b" "m" respEx (7/10) [] 0).cache.length = 2 ∧
    (MemoryCacheState.init 1).maxSize = 1 :=
  ⟨by decide, rfl⟩

/-- C7: every `get` increments `totalRequests`, increments exactly one
of `hits`/`misses`, adds the stored entry's cost to `costSavings` on a
hit; the reported hit rate is `hits / totalRequests` (0 at zero
requests); and after N sets on N distinct keys followed by N gets on
those keys (fresh statistics, within TTL and capacity) the reported hit
rate is 1. -/
theorem C7_statistics (cx : Codec) (st : MemoryCacheState) (prompt model : String)
    (temp : Rat) (params : List (String × String)) (now : Nat)
    (l : List CallArgs) (st0 : MemoryCacheState) (tset tget : Nat) :
    (((memGet cx st prompt model temp params now).2.stats.totalRequests
        = st.stats.totalRequests + 1) ∧
     ((∃ resp, (memGet cx st prompt model temp params now).1 = some resp) →
       (memGet cx st prompt model temp params now).2.stats.hits = st.stats.hits + 1 ∧
       (memGet cx st prompt model temp params now).2.stats.misses = st.stats.misses ∧
       ∃ en, jsMapGet st.cache (memGenerateKey cx.digest prompt model (some temp) params)
           = some en ∧
         (memGet cx st prompt model temp params now).1 = some en.value ∧
         (memGet cx st prompt model temp params now).2.stats.costSavings
           = st.stats.costSavings + en.value.usage.cost) ∧
     ((memGet cx st prompt model temp params now).1 = none →
       (memGet cx st prompt model temp params now).2.stats.misses = st.stats.misses + 1 ∧
       (memGet cx st prompt model temp params now).2.stats.hits = st.stats.hits ∧
       (memGet cx st prompt model temp params now).2.stats.costSavings
         = st.stats.costSavings)) ∧
    ((memGetStats st).1.hitRate =
      if st.stats.totalRequests > 0 then
        (st.stats.hits : Rat) / (st.stats.totalRequests : Rat)
      else 0) ∧
    (st0.stats = CacheStats.init → st0.cache = [] → (l.map (keyOf cx)).Nodup →
     l.length ≤ st0.maxSize → 0 < l.length →
     (tget : Int) - (tset : Int) < (st0.defaultTTL : Int) →
     (memGetStats (runGets cx tget l (runSets cx tset l st0))).1.hitRate = 1) := by
  obtain ⟨h1, _, h3, h4⟩ := memGet_step cx st prompt model temp params now
  exact ⟨⟨h1, h3, h4⟩, rfl,
    fun a b c d e f => n_sets_n_gets_hitRate cx l st0 tset tget a b c d e f⟩

theorem C7_statistics_witness :
    ((List.map (keyOf cxEx) [argsEx]).Nodup) ∧
    (memGetStats (runGets cxEx 1 [argsEx]
        (runSets cxEx 0 [argsEx] MemoryCacheState.init))).1.hitRate = 1 :=
  ⟨by decide,
   (C7_statistics cxEx MemoryCacheState.init "p" "m" (7/10) [] 0
      [argsEx] MemoryCacheState.init 0 1).2.2
     rfl rfl (by decide) (by decide) (by decide) (by decide)⟩

/-- C8: no pre-flight budget check exists. `enhanceProject` is
invariant in the configured cost ceiling (`config.costs` is never
consulted and no `BudgetExceededError` control path exists in the
service), and under a documentation-only configuration with a zero
ceiling and a strictly positive pre-flight estimate the run still
issues provider calls. -/
theorem C8_budget_not_enforced (cx : Codec) (env : DocGenEnv) (senv : ServiceEnv)
    (cfg : IntelligenceConfig) (c1 c2 : CostsConfig)
    (gen : Option (MemoryCacheState → List CodeExample × List String × MemoryCacheState))
    (project : GeneratedProject) (spec : OpenApiDoc) (options : EnhanceOptions)
    (t0 t1 : Nat) (m0 : IntelligenceMetrics) (dc0 : MemoryCacheState) :
    (enhanceProject cx env senv { cfg with costs := c1 } gen project spec options
        t0 t1 m0 dc0
      = enhanceProject cx env senv { cfg with costs := c2 } gen project spec options
        t0 t1 m0 dc0) ∧
    (0 < (estimateEnhancementCost 1 1 projEx dEx1 ["documentation"]).estimatedCost) ∧
    ((enhanceProject cxEx envEx senvEx cfgZero none projEx dEx1 {} 0 1
        IntelligenceMetrics.init MemoryCacheState.init).2.2 ≠ []) := by
  refine ⟨rfl, ?_, by decide⟩
  have h1 : (["documentation"] : List String).contains "documentation" = true := rfl
  have h2 : (["documentation"] : List String).contains "examples" = false := rfl
  have h3 : (["documentation"] : List String).contains "validation" = false := rfl
  have ht : (minify dEx1).tokenCount = 39 := by decide
  simp only [estimateEnhancementCost, h1, h2, h3, if_true, if_false, ht]
  norm_num

/-- C9: truncation bounds of `minify`. The `substring(0, n) + ellipsis`
idiom bounds every retained operation summary by 203 characters (not
200), every parameter description by 53 (not 50) and every response
description by 103 (not 100); `C9_counterexample` exhibits a retained
203-character summary. -/
theorem C9_truncation (d : OpenApiDoc) :
    ∀ p ∈ (minify d).paths, ∀ op ∈ p.operations,
      (∀ s, op.summary = some s → s.length ≤ 203) ∧
      (∀ params, op.parameters = some params →
        ∀ q ∈ params, ∀ s, q.description = some s → s.length ≤ 53) ∧
      (∀ kv ∈ op.responses, ∀ s, kv.2.description = some s → s.length ≤ 103) :=
  minify_truncation_bounds d

theorem C9_truncation_witness :
    pathEx201 ∈ (minify dEx201).paths ∧ opEx201 ∈ pathEx201.operations ∧
    opEx201.summary = some (String.mk (List.replicate 200 'a') ++ "...") ∧
    (String.mk (List.replicate 200 'a') ++ "...").length ≤ 203 := by
  have hmem1 : pathEx201 ∈ (minify dEx201).paths := by
    rw [show (minify dEx201).paths = [pathEx201] from rfl]
    exact List.mem_cons_self _ _
  exact ⟨hmem1, List.mem_cons_self _ _, rfl,
    (C9_truncation dEx201 pathEx201 hmem1 opEx201 (List.mem_cons_self _ _)).1 _ rfl⟩

/-- C9 counterexample: a 201-character source summary is retained as
203 characters — beyond the stated 200-character bound. -/
theorem C9_counterexample :
    ((minify dEx201).paths.map
        (fun p => p.operations.map (fun o => o.summary.map String.length)))
      = [[some 203]] ∧ 200 < 203 :=
  ⟨by decide, by decide⟩

/-- C10: `clear()` frame effect in both variants: all stored entries
removed and `storageUsed` reset to 0, while `totalRequests`, `hits`,
`misses` and `costSavings` survive; a subsequent get on any previously
cached key of the local variant reports a miss. -/
theorem C10_clear (st : MemoryCacheState) (env : RedisEnv) (sst : SemanticCacheState)
    (cx : Codec) (prompt model : String) (temp : Rat)
    (params : List (String × String)) (now : Nat) :
    ((memClear st).cache = [] ∧
     (memClear st).stats.storageUsed = 0 ∧
     (memClear st).stats.totalRequests = st.stats.totalRequests ∧
     (memClear st).stats.hits = st.stats.hits ∧
     (memClear st).stats.misses = st.stats.misses ∧
     (memClear st).stats.costSavings = st.stats.costSavings) ∧
    ((memGet cx (memClear st) prompt model temp params now).1 = none) ∧
    (sst.connected = true → env.keysOk = true → env.delOk = true →
      ∃ st', semClear env sst = .ok st' ∧
        st'.entries = [] ∧ st'.stats.storageUsed = 0 ∧
        st'.stats.totalRequests = sst.stats.totalRequests ∧
        st'.stats.hits = sst.stats.hits ∧
        st'.stats.misses = sst.stats.misses ∧
        st'.stats.costSavings = sst.stats.costSavings) := by
  refine ⟨?_, memClear_then_get_miss cx st prompt model temp params now, ?_⟩
  · obtain ⟨a, b, c, d, e, _, g, _, _⟩ := memClear_frame st
    exact ⟨a, b, c, d, e, g⟩
  · intro h1 h2 h3
    obtain ⟨st', ha, hb, hc, hd, he, hf, _, hh, _, _⟩ := semClear_frame env sst h1 h2 h3
    exact ⟨st', ha, hb, hc, hd, he, hf, hh⟩

theorem C10_clear_witness :
    semStC.connected = true ∧
    (memGet cxEx (memClear stFull) "p" "m" (7/10) [] 0).1 = none ∧
    (∃ st', semClear redisUp semStC = .ok st' ∧
      st'.entries = [] ∧ st'.stats.storageUsed = 0 ∧
      st'.stats.totalRequests = semStC.stats.totalRequests ∧
      st'.stats.hits = semStC.stats.hits ∧
      st'.stats.misses = semStC.stats.misses ∧
      st'.stats.costSavings = semStC.stats.costSavings) :=
  ⟨rfl,
   (C10_clear stFull redisUp semStC cxEx "p" "m" (7/10) [] 0).2.1,
   (C10_clear stFull redisUp semStC cxEx "p" "m" (7/10) [] 0).2.2 rfl rfl rfl⟩

end MCPG
